import Mathlib

/-!
Shallow embedding of the ELD log-generation simulator (`src/eld/utils.py`,
class `ELDLogGenerator`) and of the trip-planning view (`src/api/views.py`).
Durations and clock values are rationals measured in hours; an absolute time
is a rational number of hours since an epoch midnight, and day 0 of the
epoch is a Monday (Python `date.weekday()` returns 0 for Monday).
-/

namespace SpotterELD

/-- Python `int()` applied to a nonnegative-or-negative rational: truncation
toward zero. -/
def pyInt (q : ℚ) : ℤ := if 0 ≤ q then ⌊q⌋ else ⌈q⌉

/-- Calendar date (day number) of an absolute time in hours. -/
def dateOf (t : ℚ) : ℤ := ⌊t / 24⌋

/-- Time of day, in hours, of an absolute time. -/
def todOf (t : ℚ) : ℚ := t - 24 * (dateOf t : ℚ)

/-- Hour component of a datetime (`datetime.hour`). -/
def hourOf (t : ℚ) : ℤ := ⌊todOf t⌋

/-- Minute component of a datetime (`datetime.minute`). -/
def minuteOf (t : ℚ) : ℤ := ⌊(todOf t - (hourOf t : ℚ)) * 60⌋

/-- Sub-minute remainder (the seconds and microseconds a `datetime.replace`
of hour and minute leaves untouched), in hours. -/
def subMinuteOf (t : ℚ) : ℚ := todOf t - (hourOf t : ℚ) - (minuteOf t : ℚ) / 60

/-- `t.replace` with a given hour and minute: keeps the date and the
sub-minute remainder, overwrites hour and minute. -/
def replaceHM (t : ℚ) (h m : ℤ) : ℚ :=
  24 * (dateOf t : ℚ) + (h : ℚ) + (m : ℚ) / 60 + subMinuteOf t

/-- The HH:MM pair recorded by `strftime` with hour and minute fields. -/
def hmOf (t : ℚ) : ℤ × ℤ := (hourOf t, minuteOf t)

/-- Python `date.weekday()`: 0 = Monday, with epoch day 0 a Monday. -/
def weekday (d : ℤ) : ℤ := d % 7

/-! ## Rule constants (`ELDLogGenerator.__init__`) -/

def max_drive_hours : ℚ := 11
def max_on_duty_hours : ℚ := 14
def min_rest_hours : ℚ := 10
def max_cycle_hours : ℚ := 70
def fuel_interval : ℚ := 1000
def fuel_time : ℚ := 1/2
def pickup_dropoff_time : ℚ := 1

/-! ## Data model -/

/-- Activity codes painted in the 96-slot daily grid. -/
inductive GridCode
  | OFF
  | D
  | ON
  | SB
deriving DecidableEq, Repr

/-- Duty status of an event. -/
inductive Status
  | driving
  | on_duty
  | off_duty
  | sleeper_berth
deriving DecidableEq, Repr

/-- Grid code of a status (the `status_code` mapping in `_add_event`). -/
def statusCode : Status → GridCode
  | .driving => .D
  | .on_duty => .ON
  | .off_duty => .OFF
  | .sleeper_berth => .SB

/-- An event record: status, recorded HH:MM start and end, duration in
hours, optional activity label. -/
structure Event where
  status : Status
  start_hm : ℤ × ℤ
  end_hm : ℤ × ℤ
  duration : ℚ
  activity : Option String
deriving DecidableEq, Repr

/-- Per-status accumulated hours of a day
(`{'driving': 0, 'on_duty': 0, 'off_duty': 0, 'sleeper': 0}`). -/
structure Totals where
  driving : ℚ
  on_duty : ℚ
  off_duty : ℚ
  sleeper : ℚ
deriving DecidableEq, Repr

/-- A daily log sheet under construction or finalized. -/
structure DayLog where
  date : ℤ
  grid : List GridCode
  events : List Event
  totals : Totals
deriving DecidableEq, Repr

/-- `_init_day_log`: fresh log for a date, all-OFF grid, no events, zero
totals. -/
def init_day_log (date : ℤ) : DayLog :=
  { date := date
    grid := List.replicate 96 GridCode.OFF
    events := []
    totals := ⟨0, 0, 0, 0⟩ }

/-- Bump the totals entry matching a status
(`day_log['totals'][total_key] += duration_hours`; the `Sleeper berth`
status maps to the `sleeper` key). -/
def addTotals (t : Totals) (s : Status) (d : ℚ) : Totals :=
  match s with
  | .driving => { t with driving := t.driving + d }
  | .on_duty => { t with on_duty := t.on_duty + d }
  | .off_duty => { t with off_duty := t.off_duty + d }
  | .sleeper_berth => { t with sleeper := t.sleeper + d }

/-- Paint grid slots with index in `[lo, min hi 96)` with a code
(`for i in range(start_idx, min(end_idx, 96))`). -/
def paintGrid (g : List GridCode) (lo hi : ℤ) (c : GridCode) : List GridCode :=
  g.mapIdx fun i v => if lo ≤ (i : ℤ) ∧ (i : ℤ) < min hi 96 then c else v

/-- `_add_event`: compute the end time; if it falls on a later calendar
date, finalize the current day into the output list, begin a fresh day for
the end date and re-anchor the event at hour 8 minute 0 of that date; then
record the event, paint the grid and bump the totals. Returns the new
clock, the (possibly fresh) current day log, and the output list. The
output list of finalized sheets (`self.log_sheets`) is threaded
explicitly. -/
def add_event (logs : List DayLog) (day_log : DayLog) (status : Status)
    (start_time duration_hours : ℚ) (activity : Option String) :
    ℚ × DayLog × List DayLog :=
  let end_time := start_time + duration_hours
  let crossed := dateOf end_time > dateOf start_time
  let logs' := if crossed then logs ++ [day_log] else logs
  let day_log' := if crossed then init_day_log (dateOf end_time) else day_log
  let start_time' := if crossed then replaceHM end_time 8 0 else start_time
  let end_time' := if crossed then start_time' + duration_hours else end_time
  let event : Event :=
    { status := status
      start_hm := hmOf start_time'
      end_hm := hmOf end_time'
      duration := duration_hours
      activity := activity }
  let start_idx := pyInt ((hourOf start_time' : ℚ) * 4 + (minuteOf start_time' : ℚ) / 15)
  let end_idx := pyInt ((hourOf end_time' : ℚ) * 4 + (minuteOf end_time' : ℚ) / 15)
  let day_log'' :=
    { day_log' with
      grid := paintGrid day_log'.grid start_idx end_idx (statusCode status)
      events := day_log'.events ++ [event]
      totals := addTotals day_log'.totals status duration_hours }
  (end_time', day_log'', logs')

/-- State of the driving-consumption loop `_add_driving`: finalized sheets,
current day log, clock, remaining drive time of the leg, remaining cycle
hours. -/
structure DriveState where
  logs : List DayLog
  day_log : DayLog
  time : ℚ
  drive : ℚ
  cycle : ℚ
deriving DecidableEq, Repr

/-- The `available` quantity computed at the top of each `_add_driving`
iteration. -/
def availableOf (s : DriveState) : ℚ :=
  min (min (max_drive_hours - s.day_log.totals.driving)
           (max_on_duty_hours - s.day_log.totals.on_duty))
      (min s.cycle s.drive)

/-- One iteration of the `_add_driving` loop body (assuming `drive > 0`):
either insert a 10-hour sleeper-berth rest on a fresh next day (resetting
the cycle on a Monday), or consume `available` hours as a driving event. -/
def drivingStep (s : DriveState) : DriveState :=
  let available := availableOf s
  if available ≤ 0 then
    let logs := s.logs ++ [s.day_log]
    let t := replaceHM s.time 8 0 + 24
    let day_log := init_day_log (dateOf t)
    let r := add_event logs day_log .sleeper_berth t min_rest_hours none
    let cycle := if weekday (dateOf r.1) = 0 then max_cycle_hours else s.cycle
    { logs := r.2.2, day_log := r.2.1, time := r.1, drive := s.drive, cycle := cycle }
  else
    let r := add_event s.logs s.day_log .driving s.time available none
    { logs := r.2.2, day_log := r.2.1, time := r.1,
      drive := s.drive - available, cycle := s.cycle - available }

/-- `_add_driving`: iterate the loop body while `drive > 0`, with explicit
fuel bounding the number of iterations; `none` means the fuel ran out
before the loop exited. -/
def add_driving (fuel : ℕ) (s : DriveState) : Option DriveState :=
  if 0 < s.drive then
    match fuel with
    | 0 => none
    | f + 1 => add_driving f (drivingStep s)
  else some s

/-! ## Full-trip generation (`generate_log_sheets`) -/

/-- One leg of the route, as delivered by the routing provider: distance in
miles, duration in hours. -/
structure RouteLeg where
  distance : ℚ
  duration : ℚ
deriving DecidableEq, Repr

/-- The two legs (current to pickup, pickup to dropoff); totals are the
field-wise sums, as built by `calculate_route`. -/
structure RouteDetails where
  leg1 : RouteLeg
  leg2 : RouteLeg
deriving DecidableEq, Repr

def RouteDetails.total_distance (rd : RouteDetails) : ℚ :=
  rd.leg1.distance + rd.leg2.distance

def RouteDetails.total_duration (rd : RouteDetails) : ℚ :=
  rd.leg1.duration + rd.leg2.duration

/-- `fuel_stops = max(0, int(total_distance / self.fuel_interval))`. -/
def fuelStopsOf (total_distance : ℚ) : ℤ :=
  max 0 (pyInt (total_distance / fuel_interval))

/-- `time_per_segment = leg2_time / (fuel_stops + 1) if fuel_stops else leg2_time`. -/
def timePerSegment (fuel_stops : ℤ) (leg2_time : ℚ) : ℚ :=
  if fuel_stops ≠ 0 then leg2_time / ((fuel_stops : ℚ) + 1) else leg2_time

/-- `remaining_cycle = self.max_cycle_hours - self.current_cycle_used`. -/
def initRemainingCycle (current_cycle_used : ℚ) : ℚ :=
  max_cycle_hours - current_cycle_used

/-- The `for i in range(fuel_stops + 1)` loop of `generate_log_sheets`,
counting down the segments left: drive one segment, then insert an
On-duty Fueling event unless this was the last segment. -/
def fuelLoop (fuel : ℕ) : ℕ → ℚ → List DayLog → DayLog → ℚ → ℚ →
    Option (List DayLog × DayLog × ℚ × ℚ)
  | 0, _, logs, day_log, t, cycle => some (logs, day_log, t, cycle)
  | k + 1, tps, logs, day_log, t, cycle =>
    match add_driving fuel ⟨logs, day_log, t, tps, cycle⟩ with
    | none => none
    | some s =>
      if 0 < k then
        let r := add_event s.logs s.day_log .on_duty s.time fuel_time (some "Fueling")
        fuelLoop fuel k tps r.2.2 r.2.1 r.1 s.cycle
      else
        fuelLoop fuel k tps s.logs s.day_log s.time s.cycle

/-- `generate_log_sheets`, with the starting calendar date (the date of
`datetime.now()`) and the loop fuel passed explicitly: Loading event, first
leg of driving, second leg split into fuel segments with Fueling events
between them, Unloading event, final day finalized. Returns the ordered
log sheets, or `none` when the fuel is insufficient. -/
def generate_log_sheets (fuel : ℕ) (rd : RouteDetails)
    (current_cycle_used : ℚ) (startDate : ℤ) : Option (List DayLog) :=
  let fuel_stops := fuelStopsOf rd.total_distance
  let t0 : ℚ := 24 * (startDate : ℚ) + 8
  let remaining_cycle := initRemainingCycle current_cycle_used
  let day_log := init_day_log (dateOf t0)
  let r1 := add_event [] day_log .on_duty t0 pickup_dropoff_time (some "Loading")
  match add_driving fuel ⟨r1.2.2, r1.2.1, r1.1, rd.leg1.duration, remaining_cycle⟩ with
  | none => none
  | some s =>
    let tps := timePerSegment fuel_stops rd.leg2.duration
    match fuelLoop fuel (fuel_stops + 1).toNat tps s.logs s.day_log s.time s.cycle with
    | none => none
    | some (logs, day_log, t, _) =>
      let r2 := add_event logs day_log .on_duty t pickup_dropoff_time (some "Unloading")
      some (r2.2.2 ++ [r2.2.1])

/-! ## Route calculation and the trip-planning view
(`calculate_route` in `src/eld/utils.py`, `PlanTripView.post` in
`src/api/views.py`). The external routing provider is modelled as two
oracle functions, returning `none` on failure exactly as `get_coordinates`
and `get_route_leg` return `None`. -/

/-- A coordinate pair returned by geocoding. -/
def Coords := ℚ × ℚ
deriving DecidableEq

/-- The validated trip input. -/
structure TripInput where
  current_location : String
  pickup_location : String
  dropoff_location : String
  current_cycle_used : ℚ
deriving DecidableEq

/-- `calculate_route`: geocode the three locations, failing with a single
message if any is unresolved; then compute both legs, failing with a single
message if either is unresolved. -/
def calculate_route (geocode : String → Option Coords)
    (route_leg : Coords → Coords → Option RouteLeg) (inp : TripInput) :
    Except String RouteDetails :=
  match geocode inp.current_location, geocode inp.pickup_location,
      geocode inp.dropoff_location with
  | some c, some p, some d =>
    match route_leg c p, route_leg p d with
    | some leg1, some leg2 => .ok ⟨leg1, leg2⟩
    | _, _ => .error "Failed to calculate route"
  | _, _, _ => .error "Failed to geocode one or more locations"

/-- Records persisted by `PlanTripView.post`: the created `Trip` rows and
the created `LogSheet` rows (keyed by date, holding the log verbatim). -/
structure Persisted where
  trips : List TripInput
  log_sheets : List (ℤ × DayLog)
deriving DecidableEq

/-- `PlanTripView.post` after successful input validation: run
`calculate_route` and the simulator inside the try block; on any failure
return the error response and persist nothing; on success create the Trip
and one LogSheet per generated day log, and return the data. -/
def planTripPost (geocode : String → Option Coords)
    (route_leg : Coords → Coords → Option RouteLeg) (fuel : ℕ)
    (startDate : ℤ) (inp : TripInput) :
    Except String (RouteDetails × List DayLog) × Persisted :=
  match calculate_route geocode route_leg inp with
  | .error e => (.error e, ⟨[], []⟩)
  | .ok rd =>
    match generate_log_sheets fuel rd inp.current_cycle_used startDate with
    | none => (.error "simulation fuel exhausted", ⟨[], []⟩)
    | some logs =>
      (.ok (rd, logs), ⟨[inp], logs.map fun l => (l.date, l)⟩)

/-! ## Basic lemmas about the time model -/

theorem todOf_eq_fract (t : ℚ) : todOf t = 24 * Int.fract (t / 24) := by
  unfold todOf dateOf Int.fract
  ring

theorem todOf_nonneg (t : ℚ) : 0 ≤ todOf t := by
  rw [todOf_eq_fract]
  exact mul_nonneg (by norm_num) (Int.fract_nonneg _)

theorem todOf_lt_24 (t : ℚ) : todOf t < 24 := by
  rw [todOf_eq_fract]
  have h := Int.fract_lt_one (t / 24)
  linarith

theorem time_decomp (t : ℚ) : t = 24 * (dateOf t : ℚ) + todOf t := by
  unfold todOf
  ring

theorem dateOf_intro (d : ℤ) (x : ℚ) (h0 : 0 ≤ x) (h1 : x < 24) :
    dateOf (24 * (d : ℚ) + x) = d := by
  unfold dateOf
  have h2 : (24 * (d : ℚ) + x) / 24 = (d : ℚ) + x / 24 := by ring
  rw [h2, Int.floor_int_add]
  have h3 : ⌊x / 24⌋ = 0 := by
    rw [Int.floor_eq_zero_iff]
    constructor
    · positivity
    · exact (div_lt_one (by norm_num)).mpr h1
  omega

theorem todOf_intro (d : ℤ) (x : ℚ) (h0 : 0 ≤ x) (h1 : x < 24) :
    todOf (24 * (d : ℚ) + x) = x := by
  unfold todOf
  rw [dateOf_intro d x h0 h1]
  ring

theorem hourOf_nonneg (t : ℚ) : 0 ≤ hourOf t :=
  Int.le_floor.mpr (by exact_mod_cast todOf_nonneg t)

theorem hourOf_le_23 (t : ℚ) : hourOf t ≤ 23 := by
  have h : hourOf t < 24 := Int.floor_lt.mpr (by exact_mod_cast todOf_lt_24 t)
  omega

theorem subMinuteOf_eq (t : ℚ) :
    subMinuteOf t = Int.fract ((todOf t - (hourOf t : ℚ)) * 60) / 60 := by
  unfold subMinuteOf minuteOf Int.fract
  ring

theorem subMinuteOf_nonneg (t : ℚ) : 0 ≤ subMinuteOf t := by
  rw [subMinuteOf_eq]
  exact div_nonneg (Int.fract_nonneg _) (by norm_num)

theorem subMinuteOf_lt (t : ℚ) : subMinuteOf t < 1 / 60 := by
  rw [subMinuteOf_eq]
  have h := Int.fract_lt_one ((todOf t - (hourOf t : ℚ)) * 60)
  linarith

theorem replaceHM8_eq (t : ℚ) :
    replaceHM t 8 0 = 24 * (dateOf t : ℚ) + 8 + subMinuteOf t := by
  unfold replaceHM
  push_cast
  ring

theorem dateOf_replaceHM8 (t : ℚ) : dateOf (replaceHM t 8 0) = dateOf t := by
  rw [replaceHM8_eq]
  have h0 := subMinuteOf_nonneg t
  have h1 := subMinuteOf_lt t
  have h2 : 24 * (dateOf t : ℚ) + 8 + subMinuteOf t
      = 24 * (dateOf t : ℚ) + (8 + subMinuteOf t) := by ring
  rw [h2]
  exact dateOf_intro _ _ (by linarith) (by linarith)

theorem dateOf_rest_day (t : ℚ) : dateOf (replaceHM t 8 0 + 24) = dateOf t + 1 := by
  rw [replaceHM8_eq]
  have h0 := subMinuteOf_nonneg t
  have h1 := subMinuteOf_lt t
  have h2 : 24 * (dateOf t : ℚ) + 8 + subMinuteOf t + 24
      = 24 * ((dateOf t : ℚ) + 1) + (8 + subMinuteOf t) := by ring
  rw [h2]
  have h3 : ((dateOf t + 1 : ℤ) : ℚ) = (dateOf t : ℚ) + 1 := by push_cast; ring
  rw [← h3]
  exact dateOf_intro _ _ (by linarith) (by linarith)

theorem dateOf_rest_sleeper_end (t : ℚ) :
    dateOf (replaceHM t 8 0 + 24 + min_rest_hours) = dateOf t + 1 := by
  rw [replaceHM8_eq]
  have h0 := subMinuteOf_nonneg t
  have h1 := subMinuteOf_lt t
  have h2 : 24 * (dateOf t : ℚ) + 8 + subMinuteOf t + 24 + min_rest_hours
      = 24 * ((dateOf t : ℚ) + 1) + (18 + subMinuteOf t) := by
    unfold min_rest_hours; ring
  rw [h2]
  have h3 : ((dateOf t + 1 : ℤ) : ℚ) = (dateOf t : ℚ) + 1 := by push_cast; ring
  rw [← h3]
  exact dateOf_intro _ _ (by linarith) (by linarith)

/-! ## Characterization of `add_event` -/

/-- Grid slot index used by `_add_event`
(`int((t.hour * 4) + (t.minute / 15))`). -/
def slotIdx (t : ℚ) : ℤ := pyInt ((hourOf t : ℚ) * 4 + (minuteOf t : ℚ) / 15)

/-- The pure effect of recording an event on a day log: paint the grid,
append the event record, bump the totals. -/
def recordEvent (dl : DayLog) (status : Status) (s e dur : ℚ)
    (act : Option String) : DayLog :=
  { dl with
    grid := paintGrid dl.grid (slotIdx s) (slotIdx e) (statusCode status)
    events := dl.events ++ [⟨status, hmOf s, hmOf e, dur, act⟩]
    totals := addTotals dl.totals status dur }

theorem add_event_nocross (logs : List DayLog) (dl : DayLog) (st : Status)
    (t dur : ℚ) (act : Option String) (h : ¬ dateOf t < dateOf (t + dur)) :
    add_event logs dl st t dur act
      = (t + dur, recordEvent dl st t (t + dur) dur act, logs) := by
  unfold add_event recordEvent slotIdx
  simp only [gt_iff_lt, if_neg h]

theorem add_event_cross (logs : List DayLog) (dl : DayLog) (st : Status)
    (t dur : ℚ) (act : Option String) (h : dateOf t < dateOf (t + dur)) :
    add_event logs dl st t dur act
      = (replaceHM (t + dur) 8 0 + dur,
         recordEvent (init_day_log (dateOf (t + dur))) st (replaceHM (t + dur) 8 0)
           (replaceHM (t + dur) 8 0 + dur) dur act,
         logs ++ [dl]) := by
  unfold add_event recordEvent slotIdx
  simp only [gt_iff_lt, if_pos h]

theorem recordEvent_date (dl : DayLog) (st : Status) (s e dur : ℚ)
    (act : Option String) : (recordEvent dl st s e dur act).date = dl.date := rfl

theorem recordEvent_events (dl : DayLog) (st : Status) (s e dur : ℚ)
    (act : Option String) :
    (recordEvent dl st s e dur act).events
      = dl.events ++ [⟨st, hmOf s, hmOf e, dur, act⟩] := rfl

theorem recordEvent_totals (dl : DayLog) (st : Status) (s e dur : ℚ)
    (act : Option String) :
    (recordEvent dl st s e dur act).totals = addTotals dl.totals st dur := rfl

theorem addTotals_driving_of_ne (t : Totals) (s : Status) (d : ℚ)
    (h : s ≠ Status.driving) : (addTotals t s d).driving = t.driving := by
  cases s with
  | driving => exact absurd rfl h
  | on_duty => rfl
  | off_duty => rfl
  | sleeper_berth => rfl

/-! ## Characterization of `drivingStep` -/

theorem drivingStep_rest_eq (s : DriveState) (h : availableOf s ≤ 0) :
    drivingStep s =
      { logs := s.logs ++ [s.day_log]
        day_log := recordEvent (init_day_log (dateOf s.time + 1)) .sleeper_berth
            (replaceHM s.time 8 0 + 24) (replaceHM s.time 8 0 + 24 + min_rest_hours)
            min_rest_hours none
        time := replaceHM s.time 8 0 + 24 + min_rest_hours
        drive := s.drive
        cycle := if weekday (dateOf s.time + 1) = 0 then max_cycle_hours
                 else s.cycle } := by
  have hd : dateOf (replaceHM s.time 8 0 + 24) = dateOf s.time + 1 :=
    dateOf_rest_day s.time
  have he : dateOf (replaceHM s.time 8 0 + 24 + min_rest_hours) = dateOf s.time + 1 :=
    dateOf_rest_sleeper_end s.time
  have hnc : ¬ dateOf (replaceHM s.time 8 0 + 24)
      < dateOf (replaceHM s.time 8 0 + 24 + min_rest_hours) := by
    rw [hd, he]
    omega
  simp only [drivingStep, if_pos h, add_event_nocross _ _ _ _ _ _ hnc, hd, he]

theorem drivingStep_drive_nocross (s : DriveState) (h : 0 < availableOf s)
    (hnc : ¬ dateOf s.time < dateOf (s.time + availableOf s)) :
    drivingStep s =
      { logs := s.logs
        day_log := recordEvent s.day_log .driving s.time (s.time + availableOf s)
            (availableOf s) none
        time := s.time + availableOf s
        drive := s.drive - availableOf s
        cycle := s.cycle - availableOf s } := by
  simp only [drivingStep, if_neg (not_le.mpr h), add_event_nocross _ _ _ _ _ _ hnc]

theorem drivingStep_drive_cross (s : DriveState) (h : 0 < availableOf s)
    (hc : dateOf s.time < dateOf (s.time + availableOf s)) :
    drivingStep s =
      { logs := s.logs ++ [s.day_log]
        day_log := recordEvent (init_day_log (dateOf (s.time + availableOf s)))
            .driving (replaceHM (s.time + availableOf s) 8 0)
            (replaceHM (s.time + availableOf s) 8 0 + availableOf s)
            (availableOf s) none
        time := replaceHM (s.time + availableOf s) 8 0 + availableOf s
        drive := s.drive - availableOf s
        cycle := s.cycle - availableOf s } := by
  simp only [drivingStep, if_neg (not_le.mpr h), add_event_cross _ _ _ _ _ _ hc]

theorem drivingStep_cycle_drive (s : DriveState) (h : 0 < availableOf s) :
    (drivingStep s).cycle = s.cycle - availableOf s := by
  by_cases hc : dateOf s.time < dateOf (s.time + availableOf s)
  · rw [drivingStep_drive_cross s h hc]
  · rw [drivingStep_drive_nocross s h hc]

theorem drivingStep_drive_of_pos (s : DriveState) (h : 0 < availableOf s) :
    (drivingStep s).drive = s.drive - availableOf s := by
  by_cases hc : dateOf s.time < dateOf (s.time + availableOf s)
  · rw [drivingStep_drive_cross s h hc]
  · rw [drivingStep_drive_nocross s h hc]

/-! ## The generic invariant scheme for the driving loop -/

theorem add_driving_inv (P : DriveState → Prop)
    (hstep : ∀ s, 0 < s.drive → P s → P (drivingStep s)) :
    ∀ fuel s out, P s → add_driving fuel s = some out → P out := by
  intro fuel
  induction fuel with
  | zero =>
    intro s out hP h
    unfold add_driving at h
    by_cases hd : 0 < s.drive
    · simp only [if_pos hd] at h
      exact absurd h (by simp)
    · simp only [if_neg hd, Option.some.injEq] at h
      exact h ▸ hP
  | succ f ih =>
    intro s out hP h
    unfold add_driving at h
    by_cases hd : 0 < s.drive
    · simp only [if_pos hd] at h
      exact ih _ _ (hstep s hd hP) h
    · simp only [if_neg hd, Option.some.injEq] at h
      exact h ▸ hP

/-! ## More time lemmas, for the re-anchoring claims -/

theorem dateOf_mono {a b : ℚ} (h : a ≤ b) : dateOf a ≤ dateOf b :=
  Int.floor_mono (by linarith)

theorem dur_pos_of_cross {t dur : ℚ} (h : dateOf t < dateOf (t + dur)) : 0 < dur := by
  by_contra hd
  push_neg at hd
  exact absurd (dateOf_mono (by linarith : t + dur ≤ t)) (by omega)

theorem todOf_replaceHM8 (t : ℚ) : todOf (replaceHM t 8 0) = 8 + subMinuteOf t := by
  rw [replaceHM8_eq]
  have h0 := subMinuteOf_nonneg t
  have h1 := subMinuteOf_lt t
  have h2 : 24 * (dateOf t : ℚ) + 8 + subMinuteOf t
      = 24 * (dateOf t : ℚ) + (8 + subMinuteOf t) := by ring
  rw [h2]
  exact todOf_intro _ _ (by linarith) (by linarith)

theorem hourOf_replaceHM8 (t : ℚ) : hourOf (replaceHM t 8 0) = 8 := by
  unfold hourOf
  rw [todOf_replaceHM8]
  have h0 := subMinuteOf_nonneg t
  have h1 := subMinuteOf_lt t
  rw [Int.floor_eq_iff]
  constructor
  · push_cast; linarith
  · push_cast; linarith

theorem minuteOf_replaceHM8 (t : ℚ) : minuteOf (replaceHM t 8 0) = 0 := by
  unfold minuteOf
  rw [todOf_replaceHM8, hourOf_replaceHM8]
  have h0 := subMinuteOf_nonneg t
  have h1 := subMinuteOf_lt t
  rw [Int.floor_eq_zero_iff]
  constructor
  · push_cast; linarith
  · push_cast; linarith

theorem dateOf_reanchored_end (t dur : ℚ) (h0 : 0 ≤ dur) (h : dur < 959 / 60) :
    dateOf (replaceHM t 8 0 + dur) = dateOf t := by
  rw [replaceHM8_eq]
  have hs0 := subMinuteOf_nonneg t
  have hs1 := subMinuteOf_lt t
  have h2 : 24 * (dateOf t : ℚ) + 8 + subMinuteOf t + dur
      = 24 * (dateOf t : ℚ) + (8 + subMinuteOf t + dur) := by ring
  rw [h2]
  exact dateOf_intro _ _ (by linarith) (by linarith)

/-! ## Bounds on `availableOf` -/

theorem availableOf_le_cycle (s : DriveState) : availableOf s ≤ s.cycle :=
  le_trans (min_le_right _ _) (min_le_left _ _)

theorem availableOf_le_drive (s : DriveState) : availableOf s ≤ s.drive :=
  le_trans (min_le_right _ _) (min_le_right _ _)

theorem availableOf_le_drive_budget (s : DriveState) :
    availableOf s ≤ max_drive_hours - s.day_log.totals.driving :=
  le_trans (min_le_left _ _) (min_le_left _ _)

/-! ## Claim C10 -/

/-- C10: when `_add_event` crosses the day boundary, the previous day's log
is finalized exactly as it was before the call — it is appended to the
output list unchanged, so the crossing event contributes no event record,
no grid painting and no hours to it — while the fresh day's log carries the
event record and the full duration in its totals. -/
theorem c10_crossing_frame (logs : List DayLog) (dl : DayLog) (st : Status)
    (t dur : ℚ) (act : Option String) (h : dateOf t < dateOf (t + dur)) :
    (add_event logs dl st t dur act).2.2 = logs ++ [dl]
    ∧ ((add_event logs dl st t dur act).2.1).events
        = [⟨st, hmOf (replaceHM (t + dur) 8 0),
            hmOf (replaceHM (t + dur) 8 0 + dur), dur, act⟩]
    ∧ ((add_event logs dl st t dur act).2.1).totals
        = addTotals ⟨0, 0, 0, 0⟩ st dur := by
  rw [add_event_cross _ _ _ _ _ _ h]
  exact ⟨rfl, rfl, rfl⟩

/-- Witness for C10 at a concrete crossing input. -/
theorem c10_witness :
    dateOf (23 : ℚ) < dateOf ((23 : ℚ) + 2)
    ∧ ((add_event [] (init_day_log 0) Status.off_duty 23 2 none).2.2
        = [] ++ [init_day_log 0]
      ∧ ((add_event [] (init_day_log 0) Status.off_duty 23 2 none).2.1).events
          = [⟨Status.off_duty, hmOf (replaceHM ((23 : ℚ) + 2) 8 0),
              hmOf (replaceHM ((23 : ℚ) + 2) 8 0 + 2), 2, none⟩]
      ∧ ((add_event [] (init_day_log 0) Status.off_duty 23 2 none).2.1).totals
          = addTotals ⟨0, 0, 0, 0⟩ Status.off_duty 2) := by
  have hc : dateOf (23 : ℚ) < dateOf ((23 : ℚ) + 2) := by
    norm_num [dateOf]
  exact ⟨hc, c10_crossing_frame [] (init_day_log 0) Status.off_duty 23 2 none hc⟩

/-! ## Claim C3 -/

/-- C3 fails as stated: at start time 08:00 with a 30-hour duration the
boundary is crossed, yet the re-anchored event does not lie wholly within
the new day — its end time falls two calendar days after the original
start, one day after the fresh log's date. -/
theorem c3_counterexample :
    dateOf (8 : ℚ) < dateOf ((8 : ℚ) + 30)
    ∧ dateOf (add_event [] (init_day_log 0) Status.on_duty 8 30 none).1
        ≠ ((add_event [] (init_day_log 0) Status.on_duty 8 30 none).2.1).date := by
  have hc : dateOf (8 : ℚ) < dateOf ((8 : ℚ) + 30) := by
    norm_num [dateOf]
  refine ⟨hc, ?_⟩
  rw [add_event_cross _ _ _ _ _ _ hc, recordEvent_date]
  have h1 : dateOf ((8 : ℚ) + 30) = 1 := by norm_num [dateOf]
  have h2 : replaceHM ((8 : ℚ) + 30) 8 0 = 32 := by
    norm_num [replaceHM, dateOf, todOf, hourOf, minuteOf, subMinuteOf]
  rw [init_day_log, h1, h2]
  norm_num [dateOf]

/-- C3 amended: for every day-crossing call of `_add_event` whose duration
is below 16 hours minus one minute, the current day log is finalized, a
fresh day log is begun for the end date, the event is re-anchored to start
at 08:00 (hour 8, minute 0 — plus at most a sub-minute remainder) on that
date, its end is the re-anchored start plus the duration, and the event
lies wholly within the new day. -/
theorem c3_day_boundary_reanchor (logs : List DayLog) (dl : DayLog)
    (st : Status) (t dur : ℚ) (act : Option String)
    (h : dateOf t < dateOf (t + dur)) (hdur : dur < 959 / 60) :
    (add_event logs dl st t dur act).2.2 = logs ++ [dl]
    ∧ ((add_event logs dl st t dur act).2.1).date = dateOf (t + dur)
    ∧ hourOf (replaceHM (t + dur) 8 0) = 8
    ∧ minuteOf (replaceHM (t + dur) 8 0) = 0
    ∧ (add_event logs dl st t dur act).1 = replaceHM (t + dur) 8 0 + dur
    ∧ dateOf (add_event logs dl st t dur act).1 = dateOf (t + dur) := by
  have hpos := dur_pos_of_cross h
  rw [add_event_cross _ _ _ _ _ _ h]
  refine ⟨rfl, recordEvent_date _ _ _ _ _ _, hourOf_replaceHM8 _,
    minuteOf_replaceHM8 _, rfl, ?_⟩
  exact dateOf_reanchored_end _ _ (le_of_lt hpos) hdur

/-- Witness for C3 at a concrete crossing input. -/
theorem c3_witness :
    (dateOf (23 : ℚ) < dateOf ((23 : ℚ) + 2) ∧ (2 : ℚ) < 959 / 60)
    ∧ ((add_event [] (init_day_log 0) Status.driving 23 2 none).2.2
          = [] ++ [init_day_log 0]
      ∧ ((add_event [] (init_day_log 0) Status.driving 23 2 none).2.1).date
          = dateOf ((23 : ℚ) + 2)
      ∧ hourOf (replaceHM ((23 : ℚ) + 2) 8 0) = 8
      ∧ minuteOf (replaceHM ((23 : ℚ) + 2) 8 0) = 0
      ∧ (add_event [] (init_day_log 0) Status.driving 23 2 none).1
          = replaceHM ((23 : ℚ) + 2) 8 0 + 2
      ∧ dateOf (add_event [] (init_day_log 0) Status.driving 23 2 none).1
          = dateOf ((23 : ℚ) + 2)) := by
  have hc : dateOf (23 : ℚ) < dateOf ((23 : ℚ) + 2) := by
    norm_num [dateOf]
  exact ⟨⟨hc, by norm_num⟩,
    c3_day_boundary_reanchor [] (init_day_log 0) Status.driving 23 2 none hc
      (by norm_num)⟩

/-! ## Claim C4 -/

/-- C4: the remaining cycle never exceeds 70 and never increases across a
single simulation step except on a transition to a Monday, where it is
reset to 70: (i) per step, either the cycle does not increase or the new
day is a Monday and the cycle is exactly `max_cycle_hours`; (ii) per step,
a cycle at most 70 stays at most 70; (iii) over any completed
`_add_driving` run a cycle at most 70 stays at most 70; (iv) the initial
cycle is at most 70 for any nonnegative `current_cycle_used`. -/
theorem c4_cycle_le_70_and_monotone :
    (∀ s : DriveState, 0 < s.drive →
      (drivingStep s).cycle ≤ s.cycle
        ∨ (weekday ((drivingStep s).day_log.date) = 0
            ∧ (drivingStep s).cycle = max_cycle_hours))
    ∧ (∀ s : DriveState, 0 < s.drive → s.cycle ≤ 70 → (drivingStep s).cycle ≤ 70)
    ∧ (∀ fuel s out, s.cycle ≤ 70 → add_driving fuel s = some out → out.cycle ≤ 70)
    ∧ (∀ u : ℚ, 0 ≤ u → initRemainingCycle u ≤ 70) := by
  have hstep : ∀ s : DriveState, 0 < s.drive →
      (drivingStep s).cycle ≤ s.cycle
        ∨ (weekday ((drivingStep s).day_log.date) = 0
            ∧ (drivingStep s).cycle = max_cycle_hours) := by
    intro s _
    by_cases ha : availableOf s ≤ 0
    · rw [drivingStep_rest_eq s ha]
      by_cases hw : weekday (dateOf s.time + 1) = 0
      · exact Or.inr ⟨by simpa [recordEvent_date, init_day_log] using hw, by rw [if_pos hw]⟩
      · exact Or.inl (by rw [if_neg hw])
    · push_neg at ha
      rw [drivingStep_cycle_drive s ha]
      exact Or.inl (by linarith)
  have hle : ∀ s : DriveState, 0 < s.drive → s.cycle ≤ 70 →
      (drivingStep s).cycle ≤ 70 := by
    intro s hd h70
    rcases hstep s hd with h | ⟨_, h⟩
    · linarith
    · rw [h]; unfold max_cycle_hours; norm_num
  refine ⟨hstep, hle, ?_, ?_⟩
  · intro fuel s out h70 hrun
    exact add_driving_inv (fun s => s.cycle ≤ 70) (fun s hd hP => hle s hd hP)
      fuel s out h70 hrun
  · intro u hu
    unfold initRemainingCycle max_cycle_hours
    linarith

/-- Witness for C4 at a concrete state. -/
theorem c4_witness :
    ((0 : ℚ) < 2 ∧ (70 : ℚ) ≤ 70 ∧ (0 : ℚ) ≤ 0)
    ∧ ((drivingStep ⟨[], init_day_log 0, 9, 2, 70⟩).cycle
          ≤ (⟨[], init_day_log 0, 9, 2, 70⟩ : DriveState).cycle
        ∨ (weekday ((drivingStep ⟨[], init_day_log 0, 9, 2, 70⟩).day_log.date) = 0
            ∧ (drivingStep ⟨[], init_day_log 0, 9, 2, 70⟩).cycle = max_cycle_hours))
    ∧ initRemainingCycle 0 ≤ 70 := by
  refine ⟨⟨by norm_num, by norm_num, by norm_num⟩, ?_, ?_⟩
  · exact c4_cycle_le_70_and_monotone.1 ⟨[], init_day_log 0, 9, 2, 70⟩ (by norm_num)
  · exact c4_cycle_le_70_and_monotone.2.2.2 0 (by norm_num)

/-! ## Claim C9 -/

/-- C9: the remaining cycle is nonnegative throughout a run: it starts at
`70 - current_cycle_used ≥ 0` when `current_cycle_used ≤ 70`, each step
preserves nonnegativity (a driving step consumes `available`, which is at
most the remaining cycle), and hence any completed `_add_driving` run ends
with a nonnegative cycle. -/
theorem c9_cycle_nonneg :
    (∀ u : ℚ, u ≤ 70 → 0 ≤ initRemainingCycle u)
    ∧ (∀ s : DriveState, 0 < s.drive → 0 ≤ s.cycle → 0 ≤ (drivingStep s).cycle)
    ∧ (∀ fuel s out, 0 ≤ s.cycle → add_driving fuel s = some out → 0 ≤ out.cycle) := by
  have hstep : ∀ s : DriveState, 0 < s.drive → 0 ≤ s.cycle →
      0 ≤ (drivingStep s).cycle := by
    intro s _ h0
    by_cases ha : availableOf s ≤ 0
    · rw [drivingStep_rest_eq s ha]
      by_cases hw : weekday (dateOf s.time + 1) = 0
      · rw [if_pos hw]; unfold max_cycle_hours; norm_num
      · rw [if_neg hw]; exact h0
    · push_neg at ha
      rw [drivingStep_cycle_drive s ha]
      have := availableOf_le_cycle s
      linarith
  refine ⟨?_, hstep, ?_⟩
  · intro u hu
    unfold initRemainingCycle max_cycle_hours
    linarith
  · intro fuel s out h0 hrun
    exact add_driving_inv (fun s => 0 ≤ s.cycle) (fun s hd hP => hstep s hd hP)
      fuel s out h0 hrun

/-- Witness for C9 at a concrete state. -/
theorem c9_witness :
    ((70 : ℚ) ≤ 70 ∧ (0 : ℚ) < 2 ∧ (0 : ℚ) ≤ 70)
    ∧ 0 ≤ initRemainingCycle 70
    ∧ 0 ≤ (drivingStep ⟨[], init_day_log 0, 9, 2, 70⟩).cycle := by
  refine ⟨⟨by norm_num, by norm_num, by norm_num⟩, ?_, ?_⟩
  · exact c9_cycle_nonneg.1 70 (by norm_num)
  · exact c9_cycle_nonneg.2.1 ⟨[], init_day_log 0, 9, 2, 70⟩ (by norm_num) (by norm_num)

/-! ## Claim C8 -/

/-- C8: if any of the three geocode calls or either route-leg computation
fails, trip processing stops with a single descriptive failure before the
simulator runs: the view's response is that error, and no trip row and no
log-sheet row is persisted. -/
theorem c8_upstream_failure_aborts (geocode : String → Option Coords)
    (route_leg : Coords → Coords → Option RouteLeg) (fuel : ℕ) (startDate : ℤ)
    (inp : TripInput)
    (h : (geocode inp.current_location).isNone
      ∨ (geocode inp.pickup_location).isNone
      ∨ (geocode inp.dropoff_location).isNone
      ∨ (∃ c p, geocode inp.current_location = some c
          ∧ geocode inp.pickup_location = some p ∧ (route_leg c p).isNone)
      ∨ (∃ p d, geocode inp.pickup_location = some p
          ∧ geocode inp.dropoff_location = some d ∧ (route_leg p d).isNone)) :
    ∃ e, planTripPost geocode route_leg fuel startDate inp
      = (.error e, ⟨[], []⟩) := by
  simp only [Option.isNone_iff_eq_none] at h
  rcases h with h1 | h2 | h3 | ⟨c, p, hc, hp, hl⟩ | ⟨p, d, hp, hd, hl⟩
  · exact ⟨"Failed to geocode one or more locations",
      by simp [planTripPost, calculate_route, h1]⟩
  · cases hc : geocode inp.current_location with
    | none => exact ⟨"Failed to geocode one or more locations",
        by simp [planTripPost, calculate_route, hc]⟩
    | some c => exact ⟨"Failed to geocode one or more locations",
        by simp [planTripPost, calculate_route, hc, h2]⟩
  · cases hc : geocode inp.current_location with
    | none => exact ⟨"Failed to geocode one or more locations",
        by simp [planTripPost, calculate_route, hc]⟩
    | some c =>
      cases hp : geocode inp.pickup_location with
      | none => exact ⟨"Failed to geocode one or more locations",
          by simp [planTripPost, calculate_route, hc, hp]⟩
      | some p => exact ⟨"Failed to geocode one or more locations",
          by simp [planTripPost, calculate_route, hc, hp, h3]⟩
  · cases hd : geocode inp.dropoff_location with
    | none => exact ⟨"Failed to geocode one or more locations",
        by simp [planTripPost, calculate_route, hc, hp, hd]⟩
    | some d =>
      exact ⟨"Failed to calculate route",
        by simp [planTripPost, calculate_route, hc, hp, hd, hl]⟩
  · cases hc : geocode inp.current_location with
    | none => exact ⟨"Failed to geocode one or more locations",
        by simp [planTripPost, calculate_route, hc]⟩
    | some c =>
      cases hl1 : route_leg c p with
      | none => exact ⟨"Failed to calculate route",
          by simp [planTripPost, calculate_route, hc, hp, hd, hl1]⟩
      | some l1 =>
        exact ⟨"Failed to calculate route",
          by simp [planTripPost, calculate_route, hc, hp, hd, hl1, hl]⟩

/-- Witness for C8: with a geocoder that resolves nothing, the view
returns an error and persists nothing. -/
theorem c8_witness :
    (((fun _ => none : String → Option Coords)
        (⟨"A", "B", "C", 0⟩ : TripInput).current_location).isNone)
    ∧ ∃ e, planTripPost (fun _ => none) (fun _ _ => none) 5 0 ⟨"A", "B", "C", 0⟩
        = (.error e, ⟨[], []⟩) :=
  ⟨by simp,
    c8_upstream_failure_aborts (fun _ => none) (fun _ _ => none) 5 0
      ⟨"A", "B", "C", 0⟩ (Or.inl (by simp))⟩

/-! ## Claim C6 -/

set_option maxHeartbeats 4000000 in
set_option maxRecDepth 4000 in
/-- C6: for total distance 500 miles (so no fuel stop), leg durations 2h
and 3h and zero cycle hours used, the run produces exactly one log sheet
whose events are, in order, Loading (On duty, 1h), Driving 2h, Driving 3h,
Unloading (On duty, 1h), with totals driving 5, on duty 2, off duty 0,
sleeper 0. -/
theorem c6_single_day_scenario :
    ((generate_log_sheets 2 ⟨⟨100, 2⟩, ⟨400, 3⟩⟩ 0 0).getD []).map
        (fun l => (l.events.map fun e => (e.status, e.activity, e.duration), l.totals))
      = [([(Status.on_duty, some "Loading", (1 : ℚ)), (Status.driving, none, 2),
          (Status.driving, none, 3), (Status.on_duty, some "Unloading", 1)],
          (⟨5, 2, 0, 0⟩ : Totals))] := by
  norm_num [generate_log_sheets, add_driving, drivingStep, add_event, fuelLoop,
    init_day_log, availableOf, fuelStopsOf, timePerSegment, initRemainingCycle,
    RouteDetails.total_distance, RouteDetails.total_duration,
    dateOf, todOf, hourOf, minuteOf, subMinuteOf, replaceHM, hmOf, pyInt,
    max_drive_hours, max_on_duty_hours, min_rest_hours, max_cycle_hours,
    fuel_interval, fuel_time, pickup_dropoff_time, addTotals]

/-! ## Claim C1 -/

set_option maxHeartbeats 4000000 in
set_option maxRecDepth 4000 in
/-- The totals of the run refuting C1: legs of 0h and 11h, total distance
3000 miles (three fuel stops), zero cycle hours used. All events fit on
day one, whose totals are driving 11 and on-duty 3.5 — their sum exceeds
the claimed 14-hour bound, because the code checks the 14-hour budget
against the on-duty total alone, which driving hours never enter. -/
theorem c1_cex_run_totals :
    ((generate_log_sheets 2 ⟨⟨0, 0⟩, ⟨3000, 11⟩⟩ 0 0).getD []).map
        (fun l => l.totals) = [⟨11, 7/2, 0, 0⟩] := by
  norm_num [generate_log_sheets, add_driving, drivingStep, add_event, fuelLoop,
    init_day_log, availableOf, fuelStopsOf, timePerSegment, initRemainingCycle,
    RouteDetails.total_distance, RouteDetails.total_duration,
    dateOf, todOf, hourOf, minuteOf, subMinuteOf, replaceHM, hmOf, pyInt,
    max_drive_hours, max_on_duty_hours, min_rest_hours, max_cycle_hours,
    fuel_interval, fuel_time, pickup_dropoff_time, addTotals]

/-- C1 fails as stated: on the concrete route with legs of 0h and 11h and
total distance 3000 miles, with zero cycle hours used, the generated day
has totals.driving + totals.on_duty = 14.5 > 14. -/
theorem c1_counterexample :
    ¬ (∀ l ∈ (generate_log_sheets 2 ⟨⟨0, 0⟩, ⟨3000, 11⟩⟩ 0 0).getD [],
        l.totals.driving ≤ 11 ∧ l.totals.driving + l.totals.on_duty ≤ 14) := by
  intro hall
  have hrun := c1_cex_run_totals
  rcases hL : (generate_log_sheets 2 ⟨⟨0, 0⟩, ⟨3000, 11⟩⟩ 0 0).getD []
    with _ | ⟨a, rest⟩
  · rw [hL] at hrun
    simp at hrun
  · rw [hL] at hrun
    cases rest with
    | nil =>
      simp only [List.map_cons, List.map_nil, List.cons.injEq, and_true] at hrun
      have hmem : a ∈ (generate_log_sheets 2 ⟨⟨0, 0⟩, ⟨3000, 11⟩⟩ 0 0).getD [] := by
        rw [hL]
        exact List.mem_singleton_self a
      have hbound := (hall a hmem).2
      rw [hrun] at hbound
      norm_num at hbound
    | cons b rest2 =>
      simp at hrun

/-! ## C1 amended: the 11-hour driving bound does hold -/

/-- A day log whose driving total is between 0 and the 11-hour cap. -/
def GoodDriving (l : DayLog) : Prop :=
  0 ≤ l.totals.driving ∧ l.totals.driving ≤ max_drive_hours

/-- All finalized logs and the current log are within the driving cap. -/
def GDP (logs : List DayLog) (dl : DayLog) : Prop :=
  (∀ l ∈ logs, GoodDriving l) ∧ GoodDriving dl

theorem addTotals_driving_driving (T : Totals) (d : ℚ) :
    (addTotals T Status.driving d).driving = T.driving + d := rfl

theorem init_day_log_totals (d : ℤ) : (init_day_log d).totals = ⟨0, 0, 0, 0⟩ := rfl

theorem GoodDriving_init (d : ℤ) : GoodDriving (init_day_log d) := by
  unfold GoodDriving init_day_log max_drive_hours
  norm_num

theorem add_event_GD (logs : List DayLog) (dl : DayLog) (st : Status)
    (t dur : ℚ) (act : Option String) (hP : GDP logs dl)
    (hdr : st = Status.driving → 0 ≤ dur ∧ dur ≤ max_drive_hours - dl.totals.driving) :
    GDP (add_event logs dl st t dur act).2.2 (add_event logs dl st t dur act).2.1 := by
  have hGDbase : ∀ base : DayLog, GoodDriving base →
      (st = Status.driving → 0 ≤ dur ∧ dur ≤ max_drive_hours - base.totals.driving) →
      GoodDriving (recordEvent base st t (t + dur) dur act) := by
    intro base hb hd
    unfold GoodDriving
    rw [recordEvent_totals]
    by_cases hst : st = Status.driving
    · subst hst
      rw [addTotals_driving_driving]
      obtain ⟨h0, h1⟩ := hd rfl
      exact ⟨by linarith [hb.1], by linarith⟩
    · rw [addTotals_driving_of_ne _ _ _ hst]
      exact hb
  by_cases hc : dateOf t < dateOf (t + dur)
  · rw [add_event_cross _ _ _ _ _ _ hc]
    constructor
    · intro l hl
      rcases List.mem_append.mp hl with h | h
      · exact hP.1 l h
      · rw [List.mem_singleton.mp h]
        exact hP.2
    · unfold GoodDriving
      rw [recordEvent_totals]
      by_cases hst : st = Status.driving
      · subst hst
        rw [addTotals_driving_driving, init_day_log_totals]
        obtain ⟨h0, h1⟩ := hdr rfl
        have := hP.2.1
        constructor
        · norm_num
          linarith
        · norm_num
          linarith
      · rw [addTotals_driving_of_ne _ _ _ hst, init_day_log_totals]
        unfold max_drive_hours
        norm_num
  · rw [add_event_nocross _ _ _ _ _ _ hc]
    exact ⟨hP.1, hGDbase dl hP.2 hdr⟩

theorem drivingStep_GD (s : DriveState) (_hd : 0 < s.drive)
    (hP : GDP s.logs s.day_log) : GDP (drivingStep s).logs (drivingStep s).day_log := by
  by_cases ha : availableOf s ≤ 0
  · rw [drivingStep_rest_eq s ha]
    constructor
    · intro l hl
      rcases List.mem_append.mp hl with h | h
      · exact hP.1 l h
      · rw [List.mem_singleton.mp h]
        exact hP.2
    · unfold GoodDriving
      rw [recordEvent_totals, addTotals_driving_of_ne _ _ _ (by simp), init_day_log_totals]
      unfold max_drive_hours
      norm_num
  · push_neg at ha
    have hkey := add_event_GD s.logs s.day_log Status.driving s.time (availableOf s)
      none hP (fun _ => ⟨le_of_lt ha, availableOf_le_drive_budget s⟩)
    by_cases hc : dateOf s.time < dateOf (s.time + availableOf s)
    · rw [drivingStep_drive_cross s ha hc]
      rw [add_event_cross _ _ _ _ _ _ hc] at hkey
      exact hkey
    · rw [drivingStep_drive_nocross s ha hc]
      rw [add_event_nocross _ _ _ _ _ _ hc] at hkey
      exact hkey

theorem add_driving_GD (fuel : ℕ) (s out : DriveState)
    (hP : GDP s.logs s.day_log) (h : add_driving fuel s = some out) :
    GDP out.logs out.day_log :=
  add_driving_inv (fun s => GDP s.logs s.day_log) drivingStep_GD fuel s out hP h

theorem fuelLoop_GD (fuel : ℕ) :
    ∀ (k : ℕ) (tps : ℚ) (logs : List DayLog) (dl : DayLog) (t c : ℚ) out,
    fuelLoop fuel k tps logs dl t c = some out → GDP logs dl → GDP out.1 out.2.1 := by
  intro k
  induction k with
  | zero =>
    intro tps logs dl t c out h hP
    simp only [fuelLoop, Option.some.injEq] at h
    rw [← h]
    exact hP
  | succ k ih =>
    intro tps logs dl t c out h hP
    simp only [fuelLoop] at h
    cases had : add_driving fuel ⟨logs, dl, t, tps, c⟩ with
    | none => rw [had] at h; exact absurd h (by simp)
    | some s =>
      rw [had] at h
      simp only at h
      have hs := add_driving_GD fuel _ s hP had
      by_cases hk : 0 < k
      · rw [if_pos hk] at h
        have hf := add_event_GD s.logs s.day_log Status.on_duty s.time fuel_time
          (some "Fueling") hs (by simp)
        exact ih _ _ _ _ _ _ h hf
      · rw [if_neg hk] at h
        exact ih _ _ _ _ _ _ h hs

/-- C1 amended: every log sheet returned by a completed run has a driving
total of at most `max_drive_hours` (11). The originally claimed bound
`driving + on_duty ≤ 14` fails (see the counterexample); the code compares
the 14-hour budget against the on-duty total alone. -/
theorem c1_driving_total_le_eleven (fuel : ℕ) (rd : RouteDetails) (u : ℚ)
    (d0 : ℤ) (out : List DayLog)
    (h : generate_log_sheets fuel rd u d0 = some out) :
    ∀ l ∈ out, l.totals.driving ≤ max_drive_hours := by
  simp only [generate_log_sheets] at h
  have h0 : GDP [] (init_day_log (dateOf (24 * (d0 : ℚ) + 8))) :=
    ⟨by simp, GoodDriving_init _⟩
  have h1 := add_event_GD [] (init_day_log (dateOf (24 * (d0 : ℚ) + 8)))
    Status.on_duty (24 * (d0 : ℚ) + 8) pickup_dropoff_time (some "Loading") h0
    (by simp)
  cases had : add_driving fuel
      ⟨(add_event [] (init_day_log (dateOf (24 * (d0 : ℚ) + 8))) Status.on_duty
          (24 * (d0 : ℚ) + 8) pickup_dropoff_time (some "Loading")).2.2,
        (add_event [] (init_day_log (dateOf (24 * (d0 : ℚ) + 8))) Status.on_duty
          (24 * (d0 : ℚ) + 8) pickup_dropoff_time (some "Loading")).2.1,
        (add_event [] (init_day_log (dateOf (24 * (d0 : ℚ) + 8))) Status.on_duty
          (24 * (d0 : ℚ) + 8) pickup_dropoff_time (some "Loading")).1,
        rd.leg1.duration, initRemainingCycle u⟩ with
  | none => rw [had] at h; exact absurd h (by simp)
  | some s =>
    rw [had] at h
    simp only at h
    have hs : GDP s.logs s.day_log := add_driving_GD fuel _ s h1 had
    cases hfl : fuelLoop fuel (fuelStopsOf rd.total_distance + 1).toNat
        (timePerSegment (fuelStopsOf rd.total_distance) rd.leg2.duration)
        s.logs s.day_log s.time s.cycle with
    | none => rw [hfl] at h; exact absurd h (by simp)
    | some q =>
      rw [hfl] at h
      simp only at h
      obtain ⟨logs2, dl2, t2, c2⟩ := q
      have hq : GDP logs2 dl2 := fuelLoop_GD fuel _ _ _ _ _ _ _ hfl hs
      have h2 := add_event_GD logs2 dl2 Status.on_duty t2 pickup_dropoff_time
        (some "Unloading") hq (by simp)
      simp only [Option.some.injEq] at h
      rw [← h]
      intro l hl
      rcases List.mem_append.mp hl with hm | hm
      · exact (h2.1 l hm).2
      · rw [List.mem_singleton.mp hm]
        exact h2.2.2

/-- The single log sheet produced by a trivial run (both legs of zero
duration): Loading then Unloading, both on duty. -/
def tinyRunLog : DayLog :=
  { date := 0
    grid := paintGrid (paintGrid (List.replicate 96 GridCode.OFF) 32 36
        (statusCode Status.on_duty)) 36 40 (statusCode Status.on_duty)
    events := [⟨Status.on_duty, (8, 0), (9, 0), 1, some "Loading"⟩,
               ⟨Status.on_duty, (9, 0), (10, 0), 1, some "Unloading"⟩]
    totals := ⟨0, 2, 0, 0⟩ }

set_option maxHeartbeats 1000000 in
set_option maxRecDepth 4000 in
/-- Witness for the amended C1 on a concrete completed run. -/
theorem c1_witness : tinyRunLog.totals.driving ≤ max_drive_hours :=
  c1_driving_total_le_eleven 1 ⟨⟨0, 0⟩, ⟨0, 0⟩⟩ 0 0 [tinyRunLog]
    (by norm_num [generate_log_sheets, add_driving, drivingStep, add_event, fuelLoop,
      init_day_log, availableOf, fuelStopsOf, timePerSegment, initRemainingCycle,
      RouteDetails.total_distance, RouteDetails.total_duration, tinyRunLog,
      dateOf, todOf, hourOf, minuteOf, subMinuteOf, replaceHM, hmOf, pyInt,
      max_drive_hours, max_on_duty_hours, min_rest_hours, max_cycle_hours,
      fuel_interval, fuel_time, pickup_dropoff_time, addTotals])
    tinyRunLog (by simp)

/-! ## Claim C5: fueling stops -/

/-- Number of events carrying the "Fueling" activity label. -/
def countFueling (es : List Event) : ℕ :=
  es.countP fun e => e.activity == some "Fueling"

/-- Fueling events over the finalized logs plus the current day log. -/
def fuelingTotal (logs : List DayLog) (dl : DayLog) : ℕ :=
  (logs.map fun l => countFueling l.events).sum + countFueling dl.events

theorem countFueling_append (es : List Event) (e : Event) :
    countFueling (es ++ [e])
      = countFueling es + (if e.activity = some "Fueling" then 1 else 0) := by
  unfold countFueling
  rw [List.countP_append]
  congr 1
  by_cases h : e.activity = some "Fueling"
  · simp [List.countP, List.countP.go, h]
  · have hb : (e.activity == some "Fueling") = false := beq_eq_false_iff_ne.mpr h
    simp [List.countP, List.countP.go, h, hb]

theorem add_event_fuelingTotal (logs : List DayLog) (dl : DayLog) (st : Status)
    (t dur : ℚ) (act : Option String) :
    fuelingTotal (add_event logs dl st t dur act).2.2
        (add_event logs dl st t dur act).2.1
      = fuelingTotal logs dl + (if act = some "Fueling" then 1 else 0) := by
  by_cases hc : dateOf t < dateOf (t + dur)
  · rw [add_event_cross _ _ _ _ _ _ hc]
    unfold fuelingTotal
    rw [recordEvent_events]
    show ((logs ++ [dl]).map fun l => countFueling l.events).sum
        + countFueling ((init_day_log _).events ++ [⟨st, _, _, dur, act⟩]) = _
    rw [List.map_append, List.sum_append]
    have hinit : (init_day_log (dateOf (t + dur))).events = [] := rfl
    rw [hinit, List.nil_append]
    have hone : countFueling [(⟨st, hmOf (replaceHM (t + dur) 8 0),
        hmOf (replaceHM (t + dur) 8 0 + dur), dur, act⟩ : Event)]
        = if act = some "Fueling" then 1 else 0 := by
      have := countFueling_append [] ⟨st, hmOf (replaceHM (t + dur) 8 0),
        hmOf (replaceHM (t + dur) 8 0 + dur), dur, act⟩
      simpa [countFueling] using this
    rw [hone]
    simp
  · rw [add_event_nocross _ _ _ _ _ _ hc]
    unfold fuelingTotal
    rw [recordEvent_events, countFueling_append]
    ring

theorem drivingStep_fuelingTotal (s : DriveState) :
    fuelingTotal (drivingStep s).logs (drivingStep s).day_log
      = fuelingTotal s.logs s.day_log := by
  by_cases ha : availableOf s ≤ 0
  · rw [drivingStep_rest_eq s ha]
    show fuelingTotal (s.logs ++ [s.day_log]) (recordEvent (init_day_log _) _ _ _ _ _)
        = fuelingTotal s.logs s.day_log
    unfold fuelingTotal
    rw [recordEvent_events]
    have hinit : (init_day_log (dateOf s.time + 1)).events = [] := rfl
    rw [hinit, List.nil_append, List.map_append, List.sum_append]
    have hone : countFueling [(⟨Status.sleeper_berth,
        hmOf (replaceHM s.time 8 0 + 24),
        hmOf (replaceHM s.time 8 0 + 24 + min_rest_hours),
        min_rest_hours, none⟩ : Event)] = 0 := by
      simp [countFueling, List.countP, List.countP.go]
    rw [hone]
    simp
  · push_neg at ha
    have hkey := add_event_fuelingTotal s.logs s.day_log Status.driving s.time
      (availableOf s) none
    by_cases hc : dateOf s.time < dateOf (s.time + availableOf s)
    · rw [drivingStep_drive_cross s ha hc]
      rw [add_event_cross _ _ _ _ _ _ hc] at hkey
      simpa using hkey
    · rw [drivingStep_drive_nocross s ha hc]
      rw [add_event_nocross _ _ _ _ _ _ hc] at hkey
      simpa using hkey

theorem add_driving_fuelingTotal (fuel : ℕ) (s out : DriveState)
    (h : add_driving fuel s = some out) :
    fuelingTotal out.logs out.day_log = fuelingTotal s.logs s.day_log := by
  refine add_driving_inv
    (fun x => fuelingTotal x.logs x.day_log = fuelingTotal s.logs s.day_log)
    ?_ fuel s out rfl h
  intro x _ hx
  rw [drivingStep_fuelingTotal x, hx]

theorem fuelLoop_fuelingTotal (fuel : ℕ) :
    ∀ (k : ℕ) (tps : ℚ) (logs : List DayLog) (dl : DayLog) (t c : ℚ) out,
    fuelLoop fuel k tps logs dl t c = some out →
    fuelingTotal out.1 out.2.1 = fuelingTotal logs dl + (k - 1) := by
  intro k
  induction k with
  | zero =>
    intro tps logs dl t c out h
    simp only [fuelLoop, Option.some.injEq] at h
    rw [← h]
    simp
  | succ k ih =>
    intro tps logs dl t c out h
    simp only [fuelLoop] at h
    cases had : add_driving fuel ⟨logs, dl, t, tps, c⟩ with
    | none => rw [had] at h; exact absurd h (by simp)
    | some s =>
      rw [had] at h
      simp only at h
      have hs := add_driving_fuelingTotal fuel _ s had
      dsimp only at hs
      by_cases hk : 0 < k
      · rw [if_pos hk] at h
        have hf := add_event_fuelingTotal s.logs s.day_log Status.on_duty s.time
          fuel_time (some "Fueling")
        rw [if_pos rfl] at hf
        have hrec := ih _ _ _ _ _ _ h
        rw [hrec, hf, hs]
        omega
      · rw [if_neg hk] at h
        have hrec := ih _ _ _ _ _ _ h
        rw [hrec, hs]
        omega

/-- C5: for every completed run, `fuel_stops` is the floor of
`total_distance / 1000` (for nonnegative distance), the second leg is
split into `fuel_stops + 1` equal segments of duration
`leg2.duration / (fuel_stops + 1)`, and the run's log sheets contain
exactly `fuel_stops` events labelled "Fueling" — one between consecutive
segments, never one after the last. -/
theorem c5_fuel_stops_segmentation (fuel : ℕ) (rd : RouteDetails) (u : ℚ)
    (d0 : ℤ) (out : List DayLog) (hd : 0 ≤ rd.total_distance)
    (h : generate_log_sheets fuel rd u d0 = some out) :
    (out.map fun l => countFueling l.events).sum
      = (fuelStopsOf rd.total_distance).toNat
    ∧ fuelStopsOf rd.total_distance = ⌊rd.total_distance / fuel_interval⌋
    ∧ timePerSegment (fuelStopsOf rd.total_distance) rd.leg2.duration
        = rd.leg2.duration / ((fuelStopsOf rd.total_distance : ℚ) + 1) := by
  have hfs0 : 0 ≤ fuelStopsOf rd.total_distance := le_max_left 0 _
  have hfloor : fuelStopsOf rd.total_distance = ⌊rd.total_distance / fuel_interval⌋ := by
    unfold fuelStopsOf pyInt
    have hq : (0 : ℚ) ≤ rd.total_distance / fuel_interval := by
      unfold fuel_interval
      positivity
    rw [if_pos hq]
    exact max_eq_right (Int.floor_nonneg.mpr hq)
  have htps : timePerSegment (fuelStopsOf rd.total_distance) rd.leg2.duration
      = rd.leg2.duration / ((fuelStopsOf rd.total_distance : ℚ) + 1) := by
    unfold timePerSegment
    by_cases hz : fuelStopsOf rd.total_distance ≠ 0
    · rw [if_pos hz]
    · rw [if_neg hz]
      push_neg at hz
      rw [hz]
      norm_num
  refine ⟨?_, hfloor, htps⟩
  simp only [generate_log_sheets] at h
  have hload := add_event_fuelingTotal [] (init_day_log (dateOf (24 * (d0 : ℚ) + 8)))
    Status.on_duty (24 * (d0 : ℚ) + 8) pickup_dropoff_time (some "Loading")
  rw [if_neg (by simp)] at hload
  cases had : add_driving fuel
      ⟨(add_event [] (init_day_log (dateOf (24 * (d0 : ℚ) + 8))) Status.on_duty
          (24 * (d0 : ℚ) + 8) pickup_dropoff_time (some "Loading")).2.2,
        (add_event [] (init_day_log (dateOf (24 * (d0 : ℚ) + 8))) Status.on_duty
          (24 * (d0 : ℚ) + 8) pickup_dropoff_time (some "Loading")).2.1,
        (add_event [] (init_day_log (dateOf (24 * (d0 : ℚ) + 8))) Status.on_duty
          (24 * (d0 : ℚ) + 8) pickup_dropoff_time (some "Loading")).1,
        rd.leg1.duration, initRemainingCycle u⟩ with
  | none => rw [had] at h; exact absurd h (by simp)
  | some s =>
    rw [had] at h
    simp only at h
    have hs := add_driving_fuelingTotal fuel _ s had
    cases hfl : fuelLoop fuel (fuelStopsOf rd.total_distance + 1).toNat
        (timePerSegment (fuelStopsOf rd.total_distance) rd.leg2.duration)
        s.logs s.day_log s.time s.cycle with
    | none => rw [hfl] at h; exact absurd h (by simp)
    | some q =>
      rw [hfl] at h
      simp only at h
      obtain ⟨logs2, dl2, t2, c2⟩ := q
      have hq := fuelLoop_fuelingTotal fuel _ _ _ _ _ _ _ hfl
      have hunload := add_event_fuelingTotal logs2 dl2 Status.on_duty t2
        pickup_dropoff_time (some "Unloading")
      rw [if_neg (by simp)] at hunload
      simp only [Option.some.injEq] at h
      rw [← h]
      have hout : ((
          (add_event logs2 dl2 Status.on_duty t2 pickup_dropoff_time
            (some "Unloading")).2.2
          ++ [(add_event logs2 dl2 Status.on_duty t2 pickup_dropoff_time
            (some "Unloading")).2.1]).map fun l => countFueling l.events).sum
          = fuelingTotal
            (add_event logs2 dl2 Status.on_duty t2 pickup_dropoff_time
              (some "Unloading")).2.2
            (add_event logs2 dl2 Status.on_duty t2 pickup_dropoff_time
              (some "Unloading")).2.1 := by
        unfold fuelingTotal
        rw [List.map_append, List.sum_append]
        simp
      rw [hout, hunload, hq, hs, hload]
      have hinit : fuelingTotal [] (init_day_log (dateOf (24 * (d0 : ℚ) + 8))) = 0 := by
        simp [fuelingTotal, countFueling, init_day_log]
      rw [hinit]
      omega

set_option maxHeartbeats 1000000 in
set_option maxRecDepth 4000 in
/-- Witness for C5 on a concrete completed run with no fuel stop. -/
theorem c5_witness :
    ((0 : ℚ) ≤ (⟨⟨0, 0⟩, ⟨0, 0⟩⟩ : RouteDetails).total_distance)
    ∧ (([tinyRunLog].map fun l => countFueling l.events).sum
        = (fuelStopsOf (⟨⟨0, 0⟩, ⟨0, 0⟩⟩ : RouteDetails).total_distance).toNat
      ∧ fuelStopsOf (⟨⟨0, 0⟩, ⟨0, 0⟩⟩ : RouteDetails).total_distance
          = ⌊(⟨⟨0, 0⟩, ⟨0, 0⟩⟩ : RouteDetails).total_distance / fuel_interval⌋
      ∧ timePerSegment (fuelStopsOf (⟨⟨0, 0⟩, ⟨0, 0⟩⟩ : RouteDetails).total_distance)
            (⟨⟨0, 0⟩, ⟨0, 0⟩⟩ : RouteDetails).leg2.duration
          = (⟨⟨0, 0⟩, ⟨0, 0⟩⟩ : RouteDetails).leg2.duration
            / ((fuelStopsOf (⟨⟨0, 0⟩, ⟨0, 0⟩⟩ : RouteDetails).total_distance : ℚ) + 1)) := by
  constructor
  · norm_num [RouteDetails.total_distance]
  · exact c5_fuel_stops_segmentation 1 ⟨⟨0, 0⟩, ⟨0, 0⟩⟩ 0 0 [tinyRunLog]
      (by norm_num [RouteDetails.total_distance])
      (by norm_num [generate_log_sheets, add_driving, drivingStep, add_event, fuelLoop,
        init_day_log, availableOf, fuelStopsOf, timePerSegment, initRemainingCycle,
        RouteDetails.total_distance, RouteDetails.total_duration, tinyRunLog,
        dateOf, todOf, hourOf, minuteOf, subMinuteOf, replaceHM, hmOf, pyInt,
        max_drive_hours, max_on_duty_hours, min_rest_hours, max_cycle_hours,
        fuel_interval, fuel_time, pickup_dropoff_time, addTotals])

/-! ## Claim C7: a fully used cycle forces a rest before any driving -/

theorem add_driving_zero_of_pos (s : DriveState) (hd : 0 < s.drive) :
    add_driving 0 s = none := by
  unfold add_driving
  rw [if_pos hd]

theorem add_driving_succ_of_pos (f : ℕ) (s : DriveState) (hd : 0 < s.drive) :
    add_driving (f + 1) s = add_driving f (drivingStep s) := by
  conv_lhs => rw [add_driving]
  rw [if_pos hd]

theorem head?_append_some {α : Type} (xs ys : List α) (a : α)
    (h : xs.head? = some a) : (xs ++ ys).head? = some a := by
  cases xs with
  | nil => exact absurd h (by simp)
  | cons x t =>
    simp only [List.head?_cons, Option.some.injEq] at h
    simp [h]

/-- After the first rest insertion: the first finalized sheet is `l1`, and
the sheet begun right after it opens with event `ev` — whether that sheet
is still under construction or already finalized. -/
def SheetInv (l1 : DayLog) (ev : Event) : List DayLog → DayLog → Prop
  | [], _ => False
  | [a], dl => a = l1 ∧ dl.events.head? = some ev
  | a :: b :: _, _ => a = l1 ∧ b.events.head? = some ev

theorem SheetInv_append_event (l1 : DayLog) (ev : Event) (logs : List DayLog)
    (dl dl' : DayLog) (h : SheetInv l1 ev logs dl)
    (hdl : ∃ more, dl'.events = dl.events ++ more) : SheetInv l1 ev logs dl' := by
  obtain ⟨more, hmore⟩ := hdl
  match logs with
  | [] => exact h.elim
  | [a] =>
    obtain ⟨ha, hev⟩ := h
    exact ⟨ha, by rw [hmore]; exact head?_append_some _ _ _ hev⟩
  | a :: b :: rest => exact h

theorem SheetInv_finalize (l1 : DayLog) (ev : Event) (logs : List DayLog)
    (dl dl2 : DayLog) (h : SheetInv l1 ev logs dl) :
    SheetInv l1 ev (logs ++ [dl]) dl2 := by
  match logs with
  | [] => exact h.elim
  | [a] => exact h
  | a :: b :: rest => exact h

theorem add_event_SheetInv (l1 : DayLog) (ev : Event) (logs : List DayLog)
    (dl : DayLog) (st : Status) (t dur : ℚ) (act : Option String)
    (h : SheetInv l1 ev logs dl) :
    SheetInv l1 ev (add_event logs dl st t dur act).2.2
      (add_event logs dl st t dur act).2.1 := by
  by_cases hc : dateOf t < dateOf (t + dur)
  · rw [add_event_cross _ _ _ _ _ _ hc]
    exact SheetInv_finalize _ _ _ _ _ h
  · rw [add_event_nocross _ _ _ _ _ _ hc]
    exact SheetInv_append_event _ _ _ _ _ h ⟨_, recordEvent_events _ _ _ _ _ _⟩

theorem drivingStep_SheetInv (l1 : DayLog) (ev : Event) (s : DriveState)
    (h : SheetInv l1 ev s.logs s.day_log) :
    SheetInv l1 ev (drivingStep s).logs (drivingStep s).day_log := by
  by_cases ha : availableOf s ≤ 0
  · rw [drivingStep_rest_eq s ha]
    exact SheetInv_finalize _ _ _ _ _ h
  · push_neg at ha
    have hkey := add_event_SheetInv l1 ev s.logs s.day_log Status.driving s.time
      (availableOf s) none h
    by_cases hc : dateOf s.time < dateOf (s.time + availableOf s)
    · rw [drivingStep_drive_cross s ha hc]
      rw [add_event_cross _ _ _ _ _ _ hc] at hkey
      exact hkey
    · rw [drivingStep_drive_nocross s ha hc]
      rw [add_event_nocross _ _ _ _ _ _ hc] at hkey
      exact hkey

theorem add_driving_SheetInv (l1 : DayLog) (ev : Event) (fuel : ℕ)
    (s out : DriveState) (h : add_driving fuel s = some out)
    (hP : SheetInv l1 ev s.logs s.day_log) :
    SheetInv l1 ev out.logs out.day_log :=
  add_driving_inv (fun x => SheetInv l1 ev x.logs x.day_log)
    (fun x _ => drivingStep_SheetInv l1 ev x) fuel s out hP h

theorem fuelLoop_SheetInv (l1 : DayLog) (ev : Event) (fuel : ℕ) :
    ∀ (k : ℕ) (tps : ℚ) (logs : List DayLog) (dl : DayLog) (t c : ℚ) out,
    fuelLoop fuel k tps logs dl t c = some out →
    SheetInv l1 ev logs dl → SheetInv l1 ev out.1 out.2.1 := by
  intro k
  induction k with
  | zero =>
    intro tps logs dl t c out h hP
    simp only [fuelLoop, Option.some.injEq] at h
    rw [← h]
    exact hP
  | succ k ih =>
    intro tps logs dl t c out h hP
    simp only [fuelLoop] at h
    cases had : add_driving fuel ⟨logs, dl, t, tps, c⟩ with
    | none => rw [had] at h; exact absurd h (by simp)
    | some s =>
      rw [had] at h
      simp only at h
      have hs := add_driving_SheetInv l1 ev fuel _ s had hP
      by_cases hk : 0 < k
      · rw [if_pos hk] at h
        exact ih _ _ _ _ _ _ h (add_event_SheetInv l1 ev s.logs s.day_log
          Status.on_duty s.time fuel_time (some "Fueling") hs)
      · rw [if_neg hk] at h
        exact ih _ _ _ _ _ _ h hs

theorem SheetInv_final (l1 : DayLog) (ev : Event) (logs : List DayLog)
    (dl : DayLog) (h : SheetInv l1 ev logs dl) :
    ∃ l2 rest, logs ++ [dl] = l1 :: l2 :: rest ∧ l2.events.head? = some ev := by
  match logs with
  | [] => exact h.elim
  | [a] =>
    obtain ⟨ha, hev⟩ := h
    exact ⟨dl, [], by rw [ha]; rfl, hev⟩
  | a :: b :: rest =>
    obtain ⟨ha, hev⟩ := h
    exact ⟨b, rest ++ [dl], by rw [ha]; simp, hev⟩

/-- C7: with `current_cycle_used = 70` and a strictly positive first leg,
the remaining cycle starts at 0, any state with a non-positive cycle makes
the driving loop compute `available ≤ 0`, and in the produced output the
first sheet contains exactly the Loading event (in particular no Driving
event), while the second sheet opens with the inserted 10-hour
Sleeper-berth rest. -/
theorem c7_zero_cycle_rest_first (fuel : ℕ) (rd : RouteDetails) (d0 : ℤ)
    (out : List DayLog) (hleg : 0 < rd.leg1.duration)
    (h : generate_log_sheets fuel rd 70 d0 = some out) :
    initRemainingCycle 70 = 0
    ∧ (∀ s : DriveState, s.cycle ≤ 0 → availableOf s ≤ 0)
    ∧ ∃ l2 rest, out = recordEvent (init_day_log d0) Status.on_duty
          (24 * (d0 : ℚ) + 8) (24 * (d0 : ℚ) + 9) pickup_dropoff_time
          (some "Loading") :: l2 :: rest
        ∧ (∀ e ∈ (recordEvent (init_day_log d0) Status.on_duty
            (24 * (d0 : ℚ) + 8) (24 * (d0 : ℚ) + 9) pickup_dropoff_time
            (some "Loading")).events, e.status ≠ Status.driving)
        ∧ ∃ ev, l2.events.head? = some ev ∧ ev.status = Status.sleeper_berth
            ∧ ev.duration = min_rest_hours := by
  have hinit : initRemainingCycle 70 = 0 := by
    unfold initRemainingCycle max_cycle_hours
    norm_num
  have havail : ∀ s : DriveState, s.cycle ≤ 0 → availableOf s ≤ 0 :=
    fun s hs => le_trans (availableOf_le_cycle s) hs
  refine ⟨hinit, havail, ?_⟩
  simp only [generate_log_sheets] at h
  have hd0 : dateOf (24 * (d0 : ℚ) + 8) = d0 :=
    dateOf_intro d0 8 (by norm_num) (by norm_num)
  have he1 : 24 * (d0 : ℚ) + 8 + pickup_dropoff_time = 24 * (d0 : ℚ) + 9 := by
    unfold pickup_dropoff_time
    ring
  have hd1 : dateOf (24 * (d0 : ℚ) + 8 + pickup_dropoff_time) = d0 := by
    rw [he1]
    exact dateOf_intro d0 9 (by norm_num) (by norm_num)
  have hnc : ¬ dateOf (24 * (d0 : ℚ) + 8)
      < dateOf (24 * (d0 : ℚ) + 8 + pickup_dropoff_time) := by
    rw [hd0, hd1]
    omega
  rw [hd0, add_event_nocross _ _ _ _ _ _ hnc, he1, hinit] at h
  dsimp only at h
  cases fuel with
  | zero =>
    rw [add_driving_zero_of_pos _ hleg] at h
    exact absurd h (by simp)
  | succ f =>
    rw [add_driving_succ_of_pos f _ hleg] at h
    have ha : availableOf ⟨[], recordEvent (init_day_log d0) Status.on_duty
        (24 * (d0 : ℚ) + 8) (24 * (d0 : ℚ) + 9) pickup_dropoff_time
        (some "Loading"), 24 * (d0 : ℚ) + 9, rd.leg1.duration, 0⟩ ≤ 0 :=
      havail _ (le_refl 0)
    rw [drivingStep_rest_eq _ ha] at h
    dsimp only at h
    have hSI : SheetInv (recordEvent (init_day_log d0) Status.on_duty
        (24 * (d0 : ℚ) + 8) (24 * (d0 : ℚ) + 9) pickup_dropoff_time
        (some "Loading"))
        ⟨Status.sleeper_berth, hmOf (replaceHM (24 * (d0 : ℚ) + 9) 8 0 + 24),
          hmOf (replaceHM (24 * (d0 : ℚ) + 9) 8 0 + 24 + min_rest_hours),
          min_rest_hours, none⟩
        ([] ++ [recordEvent (init_day_log d0) Status.on_duty
          (24 * (d0 : ℚ) + 8) (24 * (d0 : ℚ) + 9) pickup_dropoff_time
          (some "Loading")])
        (recordEvent (init_day_log (dateOf (24 * (d0 : ℚ) + 9) + 1))
          Status.sleeper_berth (replaceHM (24 * (d0 : ℚ) + 9) 8 0 + 24)
          (replaceHM (24 * (d0 : ℚ) + 9) 8 0 + 24 + min_rest_hours)
          min_rest_hours none) := by
      refine ⟨rfl, ?_⟩
      rw [recordEvent_events]
      rfl
    cases had : add_driving f
        ⟨[] ++ [recordEvent (init_day_log d0) Status.on_duty
            (24 * (d0 : ℚ) + 8) (24 * (d0 : ℚ) + 9) pickup_dropoff_time
            (some "Loading")],
          recordEvent (init_day_log (dateOf (24 * (d0 : ℚ) + 9) + 1))
            Status.sleeper_berth (replaceHM (24 * (d0 : ℚ) + 9) 8 0 + 24)
            (replaceHM (24 * (d0 : ℚ) + 9) 8 0 + 24 + min_rest_hours)
            min_rest_hours none,
          replaceHM (24 * (d0 : ℚ) + 9) 8 0 + 24 + min_rest_hours,
          rd.leg1.duration,
          if weekday (dateOf (24 * (d0 : ℚ) + 9) + 1) = 0 then max_cycle_hours
          else 0⟩ with
    | none => rw [had] at h; exact absurd h (by simp)
    | some s =>
      rw [had] at h
      dsimp only at h
      have hSIs := add_driving_SheetInv _ _ f _ s had hSI
      cases hfl : fuelLoop (f + 1) (fuelStopsOf rd.total_distance + 1).toNat
          (timePerSegment (fuelStopsOf rd.total_distance) rd.leg2.duration)
          s.logs s.day_log s.time s.cycle with
      | none => rw [hfl] at h; exact absurd h (by simp)
      | some q =>
        rw [hfl] at h
        dsimp only at h
        obtain ⟨logs2, dl2, t2, c2⟩ := q
        have hSIq := fuelLoop_SheetInv _ _ (f + 1) _ _ _ _ _ _ _ hfl hSIs
        have hSIu := add_event_SheetInv _ _ logs2 dl2 Status.on_duty t2
          pickup_dropoff_time (some "Unloading") hSIq
        simp only [Option.some.injEq] at h
        obtain ⟨l2, rest, hout, hev⟩ := SheetInv_final _ _ _ _ hSIu
        refine ⟨l2, rest, ?_, ?_, ?_⟩
        · rw [← h]
          exact hout
        · intro e he
          rw [recordEvent_events] at he
          simp only [init_day_log, List.nil_append, List.mem_singleton] at he
          rw [he]
          simp
        · exact ⟨_, hev, rfl, rfl⟩

/-- The two log sheets of a concrete exhausted-cycle run: Loading on a
Sunday, then the forced Monday rest, one hour of driving and Unloading. -/
def c7WitnessOut : List DayLog :=
  [{ date := 6
     grid := paintGrid (List.replicate 96 GridCode.OFF) 32 36 (statusCode Status.on_duty)
     events := [⟨Status.on_duty, (8, 0), (9, 0), 1, some "Loading"⟩]
     totals := ⟨0, 1, 0, 0⟩ },
   { date := 7
     grid := paintGrid (paintGrid (paintGrid (List.replicate 96 GridCode.OFF) 32 72
         (statusCode Status.sleeper_berth)) 72 76 (statusCode Status.driving)) 76 80
         (statusCode Status.on_duty)
     events := [⟨Status.sleeper_berth, (8, 0), (18, 0), 10, none⟩,
                ⟨Status.driving, (18, 0), (19, 0), 1, none⟩,
                ⟨Status.on_duty, (19, 0), (20, 0), 1, some "Unloading"⟩]
     totals := ⟨1, 1, 0, 10⟩ }]

set_option maxHeartbeats 1000000 in
set_option maxRecDepth 4000 in
/-- Witness for C7 on a concrete run with the cycle fully used. -/
theorem c7_witness :
    ((0 : ℚ) < (⟨⟨0, 1⟩, ⟨0, 0⟩⟩ : RouteDetails).leg1.duration)
    ∧ (initRemainingCycle 70 = 0
      ∧ (∀ s : DriveState, s.cycle ≤ 0 → availableOf s ≤ 0)
      ∧ ∃ l2 rest, c7WitnessOut = recordEvent (init_day_log 6) Status.on_duty
            (24 * ((6 : ℤ) : ℚ) + 8) (24 * ((6 : ℤ) : ℚ) + 9) pickup_dropoff_time
            (some "Loading") :: l2 :: rest
          ∧ (∀ e ∈ (recordEvent (init_day_log 6) Status.on_duty
              (24 * ((6 : ℤ) : ℚ) + 8) (24 * ((6 : ℤ) : ℚ) + 9) pickup_dropoff_time
              (some "Loading")).events, e.status ≠ Status.driving)
          ∧ ∃ ev, l2.events.head? = some ev ∧ ev.status = Status.sleeper_berth
              ∧ ev.duration = min_rest_hours) := by
  constructor
  · norm_num
  · exact c7_zero_cycle_rest_first 2 ⟨⟨0, 1⟩, ⟨0, 0⟩⟩ 6 c7WitnessOut (by norm_num)
      (by norm_num [generate_log_sheets, add_driving, drivingStep, add_event, fuelLoop,
        init_day_log, availableOf, fuelStopsOf, timePerSegment, initRemainingCycle,
        RouteDetails.total_distance, RouteDetails.total_duration, c7WitnessOut,
        dateOf, todOf, hourOf, minuteOf, subMinuteOf, replaceHM, hmOf, pyInt, weekday,
        max_drive_hours, max_on_duty_hours, min_rest_hours, max_cycle_hours,
        fuel_interval, fuel_time, pickup_dropoff_time, addTotals])

/-! ## Claim C2: termination of the driving loop

The loop values all stay integer multiples of `1/D`, where `D` is a common
denominator of the four rational inputs; a driving iteration therefore
consumes at least `1/D` hours, and a rest iteration advances the calendar
one day, reaching a Monday cycle reset after at most six further rests. -/

/-- `q` is an integer multiple of `1/D`. -/
def MulD (D : ℕ) (q : ℚ) : Prop := ∃ z : ℤ, q * D = z

theorem MulD_int (D : ℕ) (n : ℤ) : MulD D ((n : ℚ)) :=
  ⟨n * D, by push_cast; ring⟩

theorem MulD_ofNat (D : ℕ) (n : ℕ) : MulD D ((n : ℚ)) :=
  ⟨n * D, by push_cast; ring⟩

theorem MulD_sub (D : ℕ) (a b : ℚ) (ha : MulD D a) (hb : MulD D b) :
    MulD D (a - b) := by
  obtain ⟨x, hx⟩ := ha
  obtain ⟨y, hy⟩ := hb
  exact ⟨x - y, by push_cast [sub_mul, hx, hy]; ring⟩

theorem MulD_add (D : ℕ) (a b : ℚ) (ha : MulD D a) (hb : MulD D b) :
    MulD D (a + b) := by
  obtain ⟨x, hx⟩ := ha
  obtain ⟨y, hy⟩ := hb
  exact ⟨x + y, by push_cast [add_mul, hx, hy]; ring⟩

theorem MulD_min (D : ℕ) (a b : ℚ) (ha : MulD D a) (hb : MulD D b) :
    MulD D (min a b) := by
  rcases min_choice a b with h | h <;> rw [h]
  · exact ha
  · exact hb

theorem MulD_of_den_dvd (D : ℕ) (q : ℚ) (h : q.den ∣ D) : MulD D q := by
  obtain ⟨k, hk⟩ := h
  refine ⟨q.num * k, ?_⟩
  have hden : ((q.den : ℚ)) ≠ 0 := by
    exact_mod_cast q.den_nz
  have h1 : q * (q.den : ℚ) = (q.num : ℚ) := by
    rw [eq_comm, ← div_eq_iff hden, Rat.num_div_den]
  rw [hk]
  push_cast
  rw [← mul_assoc, h1]

theorem MulD_ge_of_pos (D : ℕ) (q : ℚ) (hD : 0 < D) (hq : MulD D q)
    (hpos : 0 < q) : 1 / (D : ℚ) ≤ q := by
  obtain ⟨z, hz⟩ := hq
  have hDq : (0 : ℚ) < (D : ℚ) := by exact_mod_cast hD
  have hz1 : (1 : ℚ) ≤ (z : ℚ) := by
    have : (0 : ℚ) < (z : ℚ) := by
      rw [← hz]
      positivity
    have hz0 : 0 < z := by exact_mod_cast this
    exact_mod_cast hz0
  rw [div_le_iff₀ hDq]
  linarith [hz, hz1]

/-- The loop state is made of multiples of `1/D` (the parts `available`
depends on, plus the drive time). -/
def DInv (D : ℕ) (s : DriveState) : Prop :=
  MulD D s.drive ∧ MulD D s.cycle ∧ MulD D s.day_log.totals.driving
    ∧ MulD D s.day_log.totals.on_duty

theorem availableOf_MulD (D : ℕ) (s : DriveState) (h : DInv D s) :
    MulD D (availableOf s) := by
  obtain ⟨h1, h2, h3, h4⟩ := h
  unfold availableOf max_drive_hours max_on_duty_hours
  exact MulD_min D _ _
    (MulD_min D _ _ (MulD_sub D _ _ (MulD_ofNat D 11) h3)
      (MulD_sub D _ _ (MulD_ofNat D 14) h4))
    (MulD_min D _ _ h2 h1)

theorem addTotals_on_duty_driving (T : Totals) (d : ℚ) :
    (addTotals T Status.driving d).on_duty = T.on_duty := rfl

theorem addTotals_driving_sleeper (T : Totals) (d : ℚ) :
    (addTotals T Status.sleeper_berth d).driving = T.driving := rfl

theorem addTotals_on_duty_sleeper (T : Totals) (d : ℚ) :
    (addTotals T Status.sleeper_berth d).on_duty = T.on_duty := rfl

theorem drivingStep_DInv (D : ℕ) (s : DriveState) (h : DInv D s) :
    DInv D (drivingStep s) := by
  obtain ⟨h1, h2, h3, h4⟩ := h
  have havail := availableOf_MulD D s ⟨h1, h2, h3, h4⟩
  have hzero : MulD D 0 := ⟨0, by norm_num⟩
  by_cases ha : availableOf s ≤ 0
  · rw [drivingStep_rest_eq s ha]
    refine ⟨h1, ?_, ?_, ?_⟩
    · by_cases hw : weekday (dateOf s.time + 1) = 0
      · rw [if_pos hw]
        exact MulD_ofNat D 70
      · rw [if_neg hw]
        exact h2
    · show MulD D (recordEvent _ _ _ _ _ _).totals.driving
      rw [recordEvent_totals, init_day_log_totals, addTotals_driving_sleeper]
      exact hzero
    · show MulD D (recordEvent _ _ _ _ _ _).totals.on_duty
      rw [recordEvent_totals, init_day_log_totals, addTotals_on_duty_sleeper]
      exact hzero
  · push_neg at ha
    by_cases hc : dateOf s.time < dateOf (s.time + availableOf s)
    · rw [drivingStep_drive_cross s ha hc]
      refine ⟨MulD_sub D _ _ h1 havail, MulD_sub D _ _ h2 havail, ?_, ?_⟩
      · show MulD D (recordEvent _ _ _ _ _ _).totals.driving
        rw [recordEvent_totals, init_day_log_totals, addTotals_driving_driving]
        simpa using MulD_add D 0 (availableOf s) hzero havail
      · show MulD D (recordEvent _ _ _ _ _ _).totals.on_duty
        rw [recordEvent_totals, init_day_log_totals, addTotals_on_duty_driving]
        exact hzero
    · rw [drivingStep_drive_nocross s ha hc]
      refine ⟨MulD_sub D _ _ h1 havail, MulD_sub D _ _ h2 havail, ?_, ?_⟩
      · show MulD D (recordEvent _ _ _ _ _ _).totals.driving
        rw [recordEvent_totals, addTotals_driving_driving]
        exact MulD_add D _ _ h3 havail
      · show MulD D (recordEvent _ _ _ _ _ _).totals.on_duty
        rw [recordEvent_totals, addTotals_on_duty_driving]
        exact h4

/-- Loop measure: seven times the number of `1/D`-sized chunks of drive
time left, plus the days until the next Monday cycle reset. -/
def loopMeasure (D : ℕ) (s : DriveState) : ℕ :=
  7 * ⌈s.drive * (D : ℚ)⌉.toNat + (6 - (dateOf s.time) % 7).toNat

/-- The loop exits within some fuel bound. -/
def Terminates (s : DriveState) : Prop := ∃ fuel, (add_driving fuel s).isSome

theorem terminates_exit (s : DriveState) (hd : ¬ 0 < s.drive) : Terminates s :=
  ⟨0, by unfold add_driving; rw [if_neg hd]; rfl⟩

theorem terminates_step (s : DriveState) (hd : 0 < s.drive)
    (h : Terminates (drivingStep s)) : Terminates s := by
  obtain ⟨f, hf⟩ := h
  exact ⟨f + 1, by rw [add_driving_succ_of_pos f s hd]; exact hf⟩

theorem ceil_toNat_drop (D : ℕ) (hD : 0 < D) (q a : ℚ) (hq : 0 < q)
    (ha : MulD D a) (ha0 : 0 < a) :
    ⌈(q - a) * (D : ℚ)⌉.toNat < ⌈q * (D : ℚ)⌉.toNat := by
  have hDq : (0 : ℚ) < (D : ℚ) := by exact_mod_cast hD
  have h1 : 1 / (D : ℚ) ≤ a := MulD_ge_of_pos D a hD ha ha0
  have h1' : 1 ≤ a * D := by
    rw [div_le_iff₀ hDq] at h1
    linarith
  have h2 : (q - a) * D ≤ q * D - 1 := by
    have hexp : (q - a) * D = q * D - a * D := by ring
    linarith
  have h3 : ⌈(q - a) * (D : ℚ)⌉ ≤ ⌈q * (D : ℚ)⌉ - 1 := by
    calc ⌈(q - a) * (D : ℚ)⌉ ≤ ⌈q * (D : ℚ) - 1⌉ := Int.ceil_mono h2
    _ = ⌈q * (D : ℚ)⌉ - 1 := by
        rw [show (q * (D : ℚ) - 1 : ℚ) = q * (D : ℚ) + ((-1 : ℤ) : ℚ) by push_cast; ring,
          Int.ceil_add_int]
        omega
  have h4 : 1 ≤ ⌈q * (D : ℚ)⌉ := by
    have hpos : (0 : ℚ) < q * (D : ℚ) := by positivity
    exact Int.ceil_pos.mpr hpos
  omega

theorem rest_state_available_pos (s : DriveState) (ha : availableOf s ≤ 0)
    (hw : weekday (dateOf s.time + 1) = 0) (hd : 0 < s.drive) :
    0 < availableOf (drivingStep s) := by
  rw [drivingStep_rest_eq s ha]
  unfold availableOf
  dsimp only
  rw [recordEvent_totals, init_day_log_totals, addTotals_driving_sleeper,
    addTotals_on_duty_sleeper, if_pos hw]
  unfold max_drive_hours max_on_duty_hours max_cycle_hours
  refine lt_min (lt_min ?_ ?_) (lt_min ?_ hd)
  · show (0 : ℚ) < 11 - (0 : ℚ)
    norm_num
  · show (0 : ℚ) < 14 - (0 : ℚ)
    norm_num
  · norm_num

theorem add_driving_terminates_aux (D : ℕ) (hD : 0 < D) :
    ∀ N : ℕ, ∀ s : DriveState, DInv D s → loopMeasure D s ≤ N → Terminates s := by
  intro N
  induction N using Nat.strong_induction_on with
  | _ N ih =>
    intro s hInv hM
    by_cases hd : 0 < s.drive
    · by_cases ha : availableOf s ≤ 0
      · have hdrive_eq : (drivingStep s).drive = s.drive := by
          rw [drivingStep_rest_eq s ha]
        have hdate : dateOf (drivingStep s).time = dateOf s.time + 1 := by
          rw [drivingStep_rest_eq s ha]
          exact dateOf_rest_sleeper_end s.time
        have hInv' : DInv D (drivingStep s) := drivingStep_DInv D s hInv
        have hps : ⌈(drivingStep s).drive * (D : ℚ)⌉.toNat
            = ⌈s.drive * (D : ℚ)⌉.toNat := by rw [hdrive_eq]
        by_cases hw : weekday (dateOf s.time + 1) = 0
        · have hd' : 0 < (drivingStep s).drive := by rw [hdrive_eq]; exact hd
          have hap : 0 < availableOf (drivingStep s) :=
            rest_state_available_pos s ha hw hd
          have hInv'' : DInv D (drivingStep (drivingStep s)) :=
            drivingStep_DInv D _ hInv'
          have hp : ⌈(drivingStep (drivingStep s)).drive * (D : ℚ)⌉.toNat
              < ⌈(drivingStep s).drive * (D : ℚ)⌉.toNat := by
            rw [drivingStep_drive_of_pos _ hap]
            exact ceil_toNat_drop D hD _ _ hd' (availableOf_MulD D _ hInv') hap
          have hm2 : loopMeasure D (drivingStep (drivingStep s)) < N := by
            unfold loopMeasure at hM ⊢
            have hg1 : (6 - (dateOf (drivingStep (drivingStep s)).time) % 7).toNat
                ≤ 6 := by omega
            omega
          exact terminates_step s hd (terminates_step _ hd'
            (ih _ hm2 _ hInv'' le_rfl))
        · have hg : (6 - (dateOf (drivingStep s).time) % 7).toNat
              < (6 - (dateOf s.time) % 7).toNat := by
            rw [hdate]
            unfold weekday at hw
            omega
          have hm2 : loopMeasure D (drivingStep s) < N := by
            unfold loopMeasure at hM ⊢
            omega
          exact terminates_step s hd (ih _ hm2 _ hInv' le_rfl)
      · push_neg at ha
        have hp : ⌈(drivingStep s).drive * (D : ℚ)⌉.toNat
            < ⌈s.drive * (D : ℚ)⌉.toNat := by
          rw [drivingStep_drive_of_pos s ha]
          exact ceil_toNat_drop D hD _ _ hd (availableOf_MulD D s hInv) ha
        have hInv' := drivingStep_DInv D s hInv
        have hm2 : loopMeasure D (drivingStep s) < N := by
          unfold loopMeasure at hM ⊢
          have hg1 : (6 - (dateOf (drivingStep s).time) % 7).toNat ≤ 6 := by omega
          omega
        exact terminates_step s hd (ih _ hm2 _ hInv' le_rfl)
    · exact terminates_exit s hd

/-- C2: the driving-consumption loop terminates. Each iteration with
positive `available` strictly decreases the remaining drive time; each
iteration with `available ≤ 0` leaves the drive time unchanged and opens a
fresh day log dated one day later with a 10-hour rest; and for every state
with nonnegative drive time and cycle there is a fuel bound within which
`_add_driving` completes. -/
theorem c2_add_driving_terminates (s : DriveState)
    (_hdrive : 0 ≤ s.drive) (_hcycle : 0 ≤ s.cycle) :
    ((0 < availableOf s → (drivingStep s).drive < s.drive)
      ∧ (availableOf s ≤ 0 → (drivingStep s).drive = s.drive
          ∧ (drivingStep s).day_log.date = dateOf s.time + 1))
    ∧ ∃ fuel, (add_driving fuel s).isSome := by
  constructor
  · constructor
    · intro ha
      rw [drivingStep_drive_of_pos s ha]
      linarith
    · intro ha
      rw [drivingStep_rest_eq s ha]
      exact ⟨rfl, rfl⟩
  · have hdvd : ∀ q : ℚ,
        q.den ∣ (s.drive.den.lcm s.cycle.den).lcm
          (s.day_log.totals.driving.den.lcm s.day_log.totals.on_duty.den)
        → MulD ((s.drive.den.lcm s.cycle.den).lcm
          (s.day_log.totals.driving.den.lcm s.day_log.totals.on_duty.den)) q :=
      fun q h => MulD_of_den_dvd _ q h
    have hD : 0 < (s.drive.den.lcm s.cycle.den).lcm
        (s.day_log.totals.driving.den.lcm s.day_log.totals.on_duty.den) := by
      refine Nat.pos_of_ne_zero (Nat.lcm_ne_zero (Nat.lcm_ne_zero ?_ ?_)
        (Nat.lcm_ne_zero ?_ ?_))
      · exact s.drive.den_nz
      · exact s.cycle.den_nz
      · exact s.day_log.totals.driving.den_nz
      · exact s.day_log.totals.on_duty.den_nz
    have hInv : DInv ((s.drive.den.lcm s.cycle.den).lcm
        (s.day_log.totals.driving.den.lcm s.day_log.totals.on_duty.den)) s := by
      refine ⟨hdvd _ ?_, hdvd _ ?_, hdvd _ ?_, hdvd _ ?_⟩
      · exact dvd_trans (Nat.dvd_lcm_left _ _) (Nat.dvd_lcm_left _ _)
      · exact dvd_trans (Nat.dvd_lcm_right _ _) (Nat.dvd_lcm_left _ _)
      · exact dvd_trans (Nat.dvd_lcm_left _ _) (Nat.dvd_lcm_right _ _)
      · exact dvd_trans (Nat.dvd_lcm_right _ _) (Nat.dvd_lcm_right _ _)
    exact add_driving_terminates_aux _ hD (loopMeasure _ s) s hInv le_rfl

/-- Witness for C2 at a concrete state with positive drive time and an
exhausted cycle. -/
theorem c2_witness :
    ((0 : ℚ) ≤ 1 ∧ (0 : ℚ) ≤ 0)
    ∧ (((0 < availableOf ⟨[], init_day_log 0, 8, 1, 0⟩ →
          (drivingStep ⟨[], init_day_log 0, 8, 1, 0⟩).drive
            < (⟨[], init_day_log 0, 8, 1, 0⟩ : DriveState).drive)
        ∧ (availableOf ⟨[], init_day_log 0, 8, 1, 0⟩ ≤ 0 →
            (drivingStep ⟨[], init_day_log 0, 8, 1, 0⟩).drive
              = (⟨[], init_day_log 0, 8, 1, 0⟩ : DriveState).drive
            ∧ (drivingStep ⟨[], init_day_log 0, 8, 1, 0⟩).day_log.date
              = dateOf (⟨[], init_day_log 0, 8, 1, 0⟩ : DriveState).time + 1))
      ∧ ∃ fuel, (add_driving fuel ⟨[], init_day_log 0, 8, 1, 0⟩).isSome) :=
  ⟨⟨by norm_num, by norm_num⟩,
    c2_add_driving_terminates ⟨[], init_day_log 0, 8, 1, 0⟩ (by norm_num)
      (by norm_num)⟩

end SpotterELD
